import Mathlib

/-!
Shallow embedding of parts of the TAO TensorFlow2 backend used by the
verification below.  Python strings are modelled as `String` or as their
character lists (`List Char`); Python ints as `Int`/`Nat`; Python floats
appearing as inert configuration constants as `ℚ`; fallible code returns
`Except`/`Option`.  Each definition carries a comment naming the source
location it embeds.
-/

namespace TaoTF2

/-! ### Python string primitives

Helpers modelling the Python `str` operations the embedded code uses.
They operate on `String.data`, the character list of a string. -/

/-- Python `s.startswith(p)`. -/
def pyStartswith (s p : String) : Bool := p.data.isPrefixOf s.data

/-- Python `s.endswith(p)`. -/
def pyEndswith (s p : String) : Bool := p.data.isSuffixOf s.data

/-- Python `s.split(sep)` for a one-character separator `sep`
(the only form the embedded code uses: `','`, `'='`, `'.'`, `'*'`).
`"".split(sep) == [""]` and separators at the ends produce empty pieces,
as in Python. -/
def splitOnChar (sep : Char) : List Char → List (List Char)
  | [] => [[]]
  | c :: rest =>
    let r := splitOnChar sep rest
    if c = sep then [] :: r
    else
      match r with
      | [] => [[c]]
      | piece :: pieces => (c :: piece) :: pieces

/-- Python `s.strip()`: whitespace removed from both ends. -/
def pyStrip (s : List Char) : List Char :=
  ((s.dropWhile Char.isWhitespace).reverse.dropWhile Char.isWhitespace).reverse

/-- Python `str.lower()` restricted to ASCII, which is all the embedded code
feeds it (file-name extensions).  Each of the 26 ASCII uppercase letters maps
to its lowercase counterpart; every other character is unchanged. -/
def pyLowerChar (c : Char) : Char :=
  match c with
  | 'A' => 'a' | 'B' => 'b' | 'C' => 'c' | 'D' => 'd' | 'E' => 'e' | 'F' => 'f'
  | 'G' => 'g' | 'H' => 'h' | 'I' => 'i' | 'J' => 'j' | 'K' => 'k' | 'L' => 'l'
  | 'M' => 'm' | 'N' => 'n' | 'O' => 'o' | 'P' => 'p' | 'Q' => 'q' | 'R' => 'r'
  | 'S' => 's' | 'T' => 't' | 'U' => 'u' | 'V' => 'v' | 'W' => 'w' | 'X' => 'x'
  | 'Y' => 'y' | 'Z' => 'z'
  | _ => c

/-- Python `s.lower()` on a character list. -/
def pyLower (s : List Char) : List Char := s.map pyLowerChar

/-! ### `random_hue` — `makenet/utils/helper.py` lines 111-131 and
`cv/makenet/utils/helper.py` lines 123-143 (identical bodies)

The hue channel is updated elementwise: `hchannel = delta + hchannel`,
then `hchannel[hchannel > 360] -= 360`, then (on the updated values)
`hchannel[hchannel < 0] += 360`.  Per element that is the composition of
the two conditional wraps below.  Channel values are modelled as `ℚ`. -/

/-- First wrap pass of `random_hue`: values above 360 are brought down by 360. -/
def hueWrapHigh (v : ℚ) : ℚ := if v > 360 then v - 360 else v

/-- Second wrap pass of `random_hue`: values below 0 are brought up by 360. -/
def hueWrapLow (v : ℚ) : ℚ := if v < 0 then v + 360 else v

/-- The effect of `random_hue` on one hue-channel element, for a fixed draw
`delta` of `randu(-max_delta, max_delta)`: `delta + hchannel` followed by the
two wrap passes. -/
def random_hue_channel (hchannel delta : ℚ) : ℚ :=
  hueWrapLow (hueWrapHigh (delta + hchannel))

/-! ### `batch_generator` and `get_label_dict` —
`cv/efficientdet/scripts/inference.py` lines 33-49 -/

/-- CPython `range(start, stop, step)` for a positive `step`: it contains
`max(0, ceil((stop-start)/step))` elements, the i-th being `start + i*step`
(`range_length` in CPython's `rangeobject.c`).  `step = 0` raises in Python
and never occurs in the embedded call sites. -/
def rangeStep (start stop step : Nat) : List Nat :=
  (List.range ((stop - start + step - 1) / step)).map (fun i => start + i * step)

/-- Python list slice `l[a:b]` for `0 ≤ a ≤ b` (as used in the sources). -/
def pySlice (l : List α) (a b : Nat) : List α := (l.drop a).take (b - a)

/-- `batch_generator(iterable, batch_size)` (inference.py lines 40-49):
yields `iterable[ndx:min(ndx + batch_size, total_len)]` for
`ndx in range(0, total_len, batch_size)`.  The lazy generator is modelled by
the list of all slices it yields. -/
def batch_generator (iterable : List α) (batch_size : Nat) : List (List α) :=
  (rangeStep 0 iterable.length batch_size).map
    (fun ndx => pySlice iterable ndx (min (ndx + batch_size) iterable.length))

/-- Helper for `readlines`: accumulates the current (reversed) line. -/
def readlinesAux (acc : List Char) : List Char → List (List Char)
  | [] => if acc.isEmpty then [] else [acc.reverse]
  | c :: rest =>
    if c = '\n' then (acc.reverse ++ ['\n']) :: readlinesAux [] rest
    else readlinesAux (c :: acc) rest

/-- Python `f.readlines()` on the file content: splits after every `'\n'`,
keeping the newline in each line; a final segment without a trailing newline
is returned as a last line without one. -/
def readlines (content : List Char) : List (List Char) := readlinesAux [] content

/-- Helper mirroring `enumerate(labels)` in `get_label_dict`: entry `i` of the
remaining lines is paired with key `i0 + i + 1` and value `label[:-1]`
(`List.dropLast` removes exactly the last character, whatever it is). -/
def labelEntries (i0 : Nat) : List (List Char) → List (Nat × List Char)
  | [] => []
  | l :: ls => (i0 + 1, l.dropLast) :: labelEntries (i0 + 1) ls

/-- `get_label_dict(label_txt)` (inference.py lines 33-37): reads the file's
lines and returns `{i + 1: label[:-1] for i, label in enumerate(labels)}`.
The dict is modelled as its association list in insertion order (keys are the
distinct integers `1..n`). -/
def get_label_dict (content : List Char) : List (Nat × List Char) :=
  labelEntries 0 (readlines content)

/-! ### file-extension filter of `infer_tlt` —
`cv/efficientdet/scripts/inference.py` lines 30 and 72-75 -/

/-- `supported_img_format = ['.jpg', '.jpeg', '.JPG', '.JPEG', '.png', '.PNG']`
(inference.py line 30). -/
def supported_img_format : List (List Char) :=
  [".jpg".data, ".jpeg".data, ".JPG".data, ".JPEG".data, ".png".data, ".PNG".data]

/-- Index of the last occurrence of `c` in `l` (CPython `str.rfind`,
with `none` for "not found"). -/
def rfindIdx (c : Char) (l : List Char) : Option Nat :=
  match l.reverse.findIdx? (· == c) with
  | none => none
  | some j => some (l.length - 1 - j)

/-- `os.path.splitext(p)` (posixpath): let `dotIndex` be the last `'.'` and
`sepIndex` the last `'/'`.  If there is a dot after the last separator and at
least one character of the basename before the dot is not itself a dot, the
path splits at `dotIndex`; otherwise the extension is empty (CPython
`genericpath._splitext`). -/
def splitext (p : List Char) : List Char × List Char :=
  match rfindIdx '.' p with
  | none => (p, [])
  | some dotIndex =>
    let filenameIndex := match rfindIdx '/' p with
      | none => 0
      | some sepIndex => sepIndex + 1
    if filenameIndex ≤ dotIndex then
      if (List.range' filenameIndex (dotIndex - filenameIndex)).any
          (fun i => p.getD i ' ' != '.') then
        (p.take dotIndex, p.drop dotIndex)
      else (p, [])
    else (p, [])

/-- The selection test of `infer_tlt` (inference.py lines 72-75): a file name
is kept exactly when `os.path.splitext(imgname)[1].lower()` is a member of
`supported_img_format`. -/
def imageSelected (imgname : List Char) : Bool :=
  decide (pyLower (splitext imgname).2 ∈ supported_img_format)

/-! ### `DataSource` — `cv/efficientdet/dataloader/datasource.py` -/

/-- The `DataSource` object: its two list attributes and the iteration cursor
`self.n`.  In Python `n` is first assigned in `__iter__`; the model stores a
cursor from construction on (the constructor's value 0 is arbitrary and
unobservable: every claim below reads the cursor only after `iter`). -/
structure DataSource where
  tfrecord_patterns : List String
  image_dirs : List String
  n : Nat
deriving DecidableEq, Repr

/-- `DataSource.__init__` (datasource.py lines 8-17): asserts that there is at
least one pattern; a non-empty directory list must match the patterns in
length, an empty one is replaced by `['/'] * len(tfrecord_patterns)`.  Failed
`assert`s surface as `Except.error` with the assertion message. -/
def DataSource.init (tfrecord_patterns image_dirs : List String) :
    Except String DataSource :=
  if tfrecord_patterns.length > 0 then
    if image_dirs.length > 0 then
      if image_dirs.length = tfrecord_patterns.length then
        .ok ⟨tfrecord_patterns, image_dirs, 0⟩
      else
        .error "The number of image directories doesnot match the number of TFRecords paths."
    else
      .ok ⟨tfrecord_patterns, List.replicate tfrecord_patterns.length "/", 0⟩
  else .error "Error!"

/-- `DataSource.__len__` (lines 19-21). -/
def DataSource.len (ds : DataSource) : Nat := ds.tfrecord_patterns.length

/-- `DataSource.__iter__` (lines 23-26): sets `self.n = 0` and returns `self`
(the same object, carrying the single shared cursor). -/
def DataSource.iter (ds : DataSource) : DataSource := { ds with n := 0 }

/-- `DataSource.__next__` (lines 28-35): yields
`(tfrecord_patterns[n], image_dirs[n])` and advances the cursor while
`n < len(tfrecord_patterns)`; `StopIteration` is modelled as `none`. -/
def DataSource.next (ds : DataSource) : Option ((String × String) × DataSource) :=
  if ds.n < ds.tfrecord_patterns.length then
    some ((ds.tfrecord_patterns.getD ds.n "", ds.image_dirs.getD ds.n ""),
      { ds with n := ds.n + 1 })
  else none

/-- Runs the iterator protocol on a `DataSource` for at most `fuel` steps,
collecting the yielded pairs (a `for` loop over the source). -/
def drain : Nat → DataSource → List (String × String)
  | 0, _ => []
  | fuel + 1, ds =>
    match ds.next with
    | none => []
    | some (x, ds') => x :: drain fuel ds'

/-- Calls `__next__` `k` times, discarding the yielded values: an iteration
that has consumed `k` elements. -/
def advanceK : Nat → DataSource → DataSource
  | 0, ds => ds
  | k + 1, ds =>
    match ds.next with
    | none => ds
    | some (_, ds') => advanceK k ds'

/-! ### classmap handling of `run_evaluate` —
`cv/classification/scripts/evaluate.py` lines 101-111 -/

/-- A JSON number as `json.load` produces it for a classmap value: a Python
`int` or a Python `float` (floats are inert here — only compared, never
computed with — and are carried exactly as rationals). -/
inductive JNum where
  | jint : Int → JNum
  | jfloat : ℚ → JNum
deriving DecidableEq, Repr

/-- Python `class_index < num` for a numeric `class_index` (evaluate.py
line 105, first conjunct of the validation). -/
def numLtNat (v : JNum) (num : Nat) : Bool :=
  match v with
  | .jint i => i < (num : Int)
  | .jfloat q => q < (num : ℚ)

/-- Python `isinstance(class_index, int)` (line 105, second conjunct):
true for ints, false for floats. -/
def isInstInt (v : JNum) : Bool :=
  match v with
  | .jint _ => true
  | .jfloat _ => false

/-- Errors the classmap fragment can raise: the `RuntimeError("Invalid data in
the json file. ...")` of line 107, a Python `IndexError` from a list
assignment with an index out of range, and a `TypeError` from indexing a list
with a float (unreachable after validation). -/
inductive EvalErr where
  | invalidData
  | indexErr
  | typeErr
deriving DecidableEq, Repr

/-- Python list assignment `l[i] = v` for `i : Int`: indices in `[0, len)` are
used directly, indices in `[-len, 0)` count from the end, anything else
raises `IndexError` (modelled as `none`). -/
def pyListSet (l : List String) (i : Int) (v : String) : Option (List String) :=
  if 0 ≤ i then
    if i < (l.length : Int) then some (l.set i.toNat v) else none
  else
    if 0 ≤ i + (l.length : Int) then some (l.set (i + (l.length : Int)).toNat v)
    else none

/-- The assignment loop of evaluate.py lines 110-111:
`for class_name, class_index in data.items(): class_names[class_index] = class_name`. -/
def assignAll (class_names : List String) :
    List (String × JNum) → Except EvalErr (List String)
  | [] => .ok class_names
  | (class_name, .jint i) :: rest =>
    match pyListSet class_names i class_name with
    | some cn' => assignAll cn' rest
    | none => .error .indexErr
  | (_, .jfloat _) :: _ => .error .typeErr

/-- The classmap branch of `run_evaluate` for non-empty `data` (evaluate.py
lines 104-111): `class_names = [""] * len(list(data.keys()))`; raise the
invalid-data `RuntimeError` unless
`all(class_index < len(class_names) and isinstance(class_index, int) for class_index in data.values())`;
otherwise run the assignment loop.  The JSON object is modelled as its
association list in insertion order. -/
def buildClassNames (data : List (String × JNum)) : Except EvalErr (List String) :=
  let class_names := List.replicate data.length ""
  if data.all (fun p => numLtNat p.2 data.length && isInstInt p.2) then
    assignAll class_names data
  else .error .invalidData

/-- Python list index used by a successful `l[i] = v` with `|i| ≤ len`:
the non-negative position actually written. -/
def normIdx (n : Nat) (i : Int) : Nat := (if i < 0 then i + (n : Int) else i).toNat

/-- The position a classmap entry writes to (entries are validated to be
ints before the loop runs; the float case is arbitrary and unreachable). -/
def normOf (n : Nat) (p : String × JNum) : Nat :=
  match p.2 with
  | .jint i => normIdx n i
  | .jfloat _ => 0

/-! ### `Config` — `nvidia_tao_tf2/cv/efficientdet/utils/hparams_config.py`

A Python scalar value, a plain nested dict (`DDict`), and a `Config` object
(`CDict`, the object's `__dict__`) are modelled as three mutually inductive
families.  Dicts and `__dict__`s keep insertion order, as Python's do. -/

mutual
/-- A scalar (non-dict) Python value stored in a config: int, float (inert,
carried exactly as `ℚ`), string, bool, `None`, list or tuple. -/
inductive PVal where
  | vint : Int → PVal
  | vfloat : ℚ → PVal
  | vstr : String → PVal
  | vbool : Bool → PVal
  | vnone : PVal
  | vlist : PList → PVal
  | vtuple : PList → PVal
/-- A Python list/tuple of scalar values. -/
inductive PList where
  | nil : PList
  | cons : PVal → PList → PList
end

mutual
/-- A value inside a plain Python dict: a scalar or a nested dict. -/
inductive DVal where
  | prim : PVal → DVal
  | dict : DDict → DVal
/-- A plain Python dict with string keys, in insertion order. -/
inductive DDict where
  | nil : DDict
  | cons : String → DVal → DDict → DDict
end

mutual
/-- A value inside a `Config.__dict__`: a scalar or a nested `Config`. -/
inductive CVal where
  | prim : PVal → CVal
  | sub : CDict → CVal
/-- A `Config` object, i.e. its `__dict__` in insertion order. -/
inductive CDict where
  | nil : CDict
  | cons : String → CVal → CDict → CDict
end

/-- Builds a `DDict` from an association list (used to write dict literals). -/
def toDDict : List (String × DVal) → DDict
  | [] => .nil
  | (k, v) :: rest => .cons k v (toDDict rest)

/-- Builds a `PList` from a list (used to write list/tuple literals). -/
def toPList : List PVal → PList
  | [] => .nil
  | v :: rest => .cons v (toPList rest)

/-- `k in self.__dict__` / `self.__dict__[k]`: first binding of `k`. -/
def lookupC (k : String) : CDict → Option CVal
  | .nil => none
  | .cons k' v rest => if k' = k then some v else lookupC k rest

/-- Dict lookup `src[k]` on a plain dict. -/
def lookupD (k : String) : DDict → Option DVal
  | .nil => none
  | .cons k' v rest => if k' = k then some v else lookupD k rest

/-- `k in d` on a plain dict. -/
def hasKeyD (k : String) : DDict → Bool
  | .nil => false
  | .cons k' _ rest => if k' = k then true else hasKeyD k rest

/-- `self.__dict__[k] = v` for a key already present: the binding is replaced
in place, keeping its position (Python dict semantics). -/
def setKeyC (d : CDict) (k : String) (v : CVal) : CDict :=
  match d with
  | .nil => .nil
  | .cons k' v' rest =>
    if k' = k then .cons k' v rest else .cons k' v' (setKeyC rest k v)

/-- `self.__dict__[k] = v` for a fresh key: the binding is appended. -/
def appendOneC (d : CDict) (k : String) (v : CVal) : CDict :=
  match d with
  | .nil => .cons k v .nil
  | .cons k' v' rest => .cons k' v' (appendOneC rest k v)

/-- In-place replacement on a plain dict, keeping the key's position. -/
def setKeyD (d : DDict) (k : String) (v : DVal) : DDict :=
  match d with
  | .nil => .nil
  | .cons k' v' rest =>
    if k' = k then .cons k' v rest else .cons k' v' (setKeyD rest k v)

/-- Appending a fresh binding to a plain dict. -/
def appendOneD (d : DDict) (k : String) (v : DVal) : DDict :=
  match d with
  | .nil => .cons k v .nil
  | .cons k' v' rest => .cons k' v' (appendOneD rest k v)

/-- `target[k] = v` on a plain dict: replace if present, else append. -/
def setItemD (d : DDict) (k : String) (v : DVal) : DDict :=
  if hasKeyD k d then setKeyD d k v else appendOneD d k v

/-- Possible exceptions of the config code: `KeyError` (carrying the
offending key of hparams_config.py line 76, whose message wraps it as
"Key `k` does not exist for overriding."), `ValueError` with its message,
and the `parse_from_yaml` branch of `override`, which reads a file and is
outside this embedding (no claim exercises it). -/
inductive PyErr where
  | keyError : String → PyErr
  | valueError : String → PyErr
  | yamlLoad : String → PyErr
deriving DecidableEq, Repr

/-- Depth-weighted size of a plain dict, the fuel bound for `cfgUpdateF`
(the auto-generated `sizeOf` of the mutual inductive has no executable
code, so the measure is spelled out). -/
def dsize : DDict → Nat
  | .nil => 1
  | .cons _ v rest =>
    1 + (match v with
      | .prim _ => 1
      | .dict l => 1 + dsize l) + dsize rest

/-- `Config._update(self, config_dict, allow_new_keys)` (hparams_config.py
lines 66-83), with `config_dict` a plain dict (the only argument shape the
call sites below pass; the `isinstance(v, Config)` branch of line 80 cannot
arise for it).  Entries are processed in order; `__setattr__` (lines 43-45)
stores `Config(v)` for a dict value and the value itself otherwise
(`copy.deepcopy` is the identity on immutable modelled values).  The
returned dict is the state of `self.__dict__` when the loop finishes or the
`KeyError` of line 76 is raised; the error, if any, is returned alongside.

The `fuel` argument is termination bookkeeping only: every recursive call
processes a strictly smaller dict, so any fuel of at least `dsize d` gives
the same result (`cfgUpdateF_irrel`), and the fuel-free entry point
`cfgUpdate` below passes `dsize d`. -/
def cfgUpdateF : Nat → CDict → DDict → Bool → CDict × Option PyErr
  | 0, self, _, _ => (self, none)
  | fuel + 1, self, d, allow_new_keys =>
    match d with
    | .nil => (self, none)
    | .cons k v rest =>
      match lookupC k self with
      | none =>
        if allow_new_keys then
          match v with
          | .prim p => cfgUpdateF fuel (appendOneC self k (.prim p)) rest allow_new_keys
          | .dict l =>
            cfgUpdateF fuel (appendOneC self k (.sub (cfgUpdateF fuel .nil l true).1))
              rest allow_new_keys
        else (self, some (.keyError k))
      | some cur =>
        match cur, v with
        | .sub subCfg, .dict subD =>
          match cfgUpdateF fuel subCfg subD allow_new_keys with
          | (subCfg', some e) => (setKeyC self k (.sub subCfg'), some e)
          | (subCfg', none) =>
            cfgUpdateF fuel (setKeyC self k (.sub subCfg')) rest allow_new_keys
        | _, .prim p => cfgUpdateF fuel (setKeyC self k (.prim p)) rest allow_new_keys
        | _, .dict l =>
          cfgUpdateF fuel (setKeyC self k (.sub (cfgUpdateF fuel .nil l true).1))
            rest allow_new_keys

/-- `Config._update` with the fuel instantiated (see `cfgUpdateF`). -/
def cfgUpdate (self : CDict) (d : DDict) (allow_new_keys : Bool) :
    CDict × Option PyErr :=
  cfgUpdateF (dsize d) self d allow_new_keys

/-- `Config.__setattr__` value conversion (lines 43-45):
`Config(v) if isinstance(v, dict) else copy.deepcopy(v)`. -/
def cfgSetVal : DVal → CVal
  | .prim p => .prim p
  | .dict l => .sub (cfgUpdate .nil l true).1

/-- `Config(config_dict)` (lines 39-41): `update` on a fresh object, i.e.
`_update(config_dict, allow_new_keys=True)` starting from an empty
`__dict__`.  Building `default_detection_configs()` by one attribute
assignment per line is the same computation: each assignment appends one
fresh binding in order. -/
def cfgOf (d : DDict) : CDict := (cfgUpdate .nil d true).1

/-- `Config.as_dict` (lines 163-171): scalars are (deep-)copied, nested
`Config`s recurse. -/
def asDict : CDict → DDict
  | .nil => .nil
  | .cons k (.prim p) rest => .cons k (.prim p) (asDict rest)
  | .cons k (.sub c) rest => .cons k (.dict (asDict c)) (asDict rest)

/-- Digit run to a number (for the integer-literal fragment below). -/
def digitsToNat (l : List Char) : Nat :=
  l.foldl (fun acc c => acc * 10 + (c.toNat - 48)) 0

/-- Decides whether `l` is a run of digits forming a valid Python decimal
integer literal (non-empty, no leading zero unless the literal is `0`). -/
def intLitDigits (l : List Char) : Option Nat :=
  if (!l.isEmpty && l.all Char.isDigit) && (l.length = 1 || l.headD '0' ≠ '0') then
    some (digitsToNat l)
  else none

/-- The integer-literal fragment of `ast.literal_eval`: an optional sign
followed by a decimal integer literal.  `eval_str_fn` only ever receives the
short value strings of `key=value` overrides; non-integer literals fall back
to the string itself, as `literal_eval`'s `ValueError` path does. -/
def parseIntLit (l : List Char) : Option Int :=
  match l with
  | '+' :: rest => (intLitDigits rest).map (fun m => (m : Int))
  | '-' :: rest => (intLitDigits rest).map (fun m => -(m : Int))
  | _ => (intLitDigits l).map (fun m => (m : Int))

/-- `eval_str_fn(val)` (hparams_config.py lines 25-32): `'true'`/`'false'`
become bools, otherwise `ast.literal_eval` (modelled for integer literals,
the only literal form the embedded call sites produce) with the string
itself as the fallback. -/
def evalStrFn (val : List Char) : PVal :=
  if val = "true".data then .vbool true
  else if val = "false".data then .vbool false
  else
    match parseIntLit val with
    | some i => .vint i
    | none => .vstr (String.mk val)

/-- The leaf of `add_kv_recursive` (lines 132-138): a value containing `'*'`
becomes the list of its `'*'`-separated pieces through `eval_str_fn`,
otherwise `eval_str_fn` of the value. -/
def leafVal (v : List Char) : DVal :=
  if v.contains '*' then .prim (.vlist (toPList ((splitOnChar '*' v).map evalStrFn)))
  else .prim (evalStrFn v)

/-- `add_kv_recursive(k, v)` (lines 132-140) after splitting the key at its
dots: `x.y.z=tt` becomes `{x: {y: {z: tt}}}` (splitting at the first dot
repeatedly is the same as folding over `k.split('.')`). -/
def addKv (parts : List (List Char)) (v : List Char) : DDict :=
  match parts with
  | [] => .nil
  | [k] => .cons (String.mk k) (leafVal v) .nil
  | k :: rest => .cons (String.mk k) (.dict (addKv rest v)) .nil

/-- `merge_dict_recursive(target, src)` (lines 142-149). -/
def mergeDict (target : DDict) (src : DDict) : DDict :=
  match src with
  | .nil => target
  | .cons k v rest =>
    let target' :=
      match lookupD k target, v with
      | some (.dict tl), .dict sl => setKeyD target k (.dict (mergeDict tl sl))
      | _, _ => setItemD target k v
    mergeDict target' rest

/-- The `key=value` loop of `parse_from_str` (lines 151-161): empty pieces are
skipped, each remaining piece must split at `'='` into exactly two parts
(anything else raises the `ValueError` of line 161), keys are stripped, and
the parsed single-path dicts are merged left to right. -/
def parseKvPairs (acc : DDict) : List (List Char) → Except PyErr DDict
  | [] => .ok acc
  | kv :: rest =>
    if kv.isEmpty then parseKvPairs acc rest
    else
      match splitOnChar '=' kv with
      | [key_str, value_str] =>
        parseKvPairs
          (mergeDict acc (addKv (splitOnChar '.' (pyStrip key_str)) value_str)) rest
      | _ => .error (.valueError ("Invalid config_str: " ++ String.mk kv))

/-- `Config.parse_from_str(config_str)` (lines 127-161): `''` gives `{}`,
otherwise the comma-separated `key=value` pairs are parsed and merged. -/
def parse_from_str (config_str : String) : Except PyErr DDict :=
  if config_str.data.isEmpty then .ok .nil
  else parseKvPairs .nil (splitOnChar ',' config_str.data)

/-- `Config.override(config_dict_or_str, allow_new_keys=False)` for a string
argument (lines 97-114): empty strings are no-ops, strings containing `'='`
go through `parse_from_str` then `_update`, `.yaml` suffixes would read a
file (outside the embedding), anything else raises `ValueError`.  Like
`cfgUpdate`, returns the final `__dict__` state alongside the error. -/
def cfgOverride (self : CDict) (config_dict_or_str : String)
    (allow_new_keys : Bool := false) : CDict × Option PyErr :=
  if config_dict_or_str.data.isEmpty then (self, none)
  else if config_dict_or_str.data.contains '=' then
    match parse_from_str config_dict_or_str with
    | .error e => (self, some e)
    | .ok d => cfgUpdate self d allow_new_keys
  else if pyEndswith config_dict_or_str ".yaml" then
    (self, some (.yamlLoad config_dict_or_str))
  else
    (self, some (.valueError ("Invalid string " ++ config_dict_or_str ++
      ", must end with .yaml or contains \"=\".")))

/-- Well-formedness of a plain dict as `json`/Python would produce it: keys
are distinct at every nesting level. -/
def wfDict : DDict → Bool
  | .nil => true
  | .cons k (.prim _) rest => !hasKeyD k rest && wfDict rest
  | .cons k (.dict l) rest => !hasKeyD k rest && (wfDict l && wfDict rest)

/-- Proof-side: the image of a plain dict under the `__setattr__` value
conversion, binding by binding. -/
def mapSetVal : DDict → CDict
  | .nil => .nil
  | .cons k v rest => .cons k (cfgSetVal v) (mapSetVal rest)

/-- Proof-side: concatenation of `__dict__` fragments. -/
def appendC : CDict → CDict → CDict
  | .nil, m => m
  | .cons k v rest, m => .cons k v (appendC rest m)

set_option maxHeartbeats 2000000 in
/-- `default_detection_configs()` (hparams_config.py lines 175-304): a fresh
`Config` receives one attribute assignment per listed line, in source order;
each assignment appends a fresh binding (`nms_configs`, a dict value, becomes
a nested `Config`).  Float constants are carried exactly (`4e-5 = 1/25000`,
`0.9998 = 4999/5000`, ...); `2**15 = 32768`. -/
def default_detection_configs : CDict := cfgOf (toDDict [
  ("name", .prim (.vstr "efficientdet-d0")),
  ("model_name", .prim (.vstr "efficientdet-d0")),
  ("act_type", .prim (.vstr "swish")),
  ("image_size", .prim (.vint 640)),
  ("target_size", .prim .vnone),
  ("input_rand_hflip", .prim (.vbool true)),
  ("jitter_min", .prim (.vfloat (1/10))),
  ("jitter_max", .prim (.vfloat 2)),
  ("auto_augment", .prim (.vbool false)),
  ("auto_color", .prim (.vbool false)),
  ("auto_translate_xy", .prim (.vbool false)),
  ("grid_mask", .prim (.vbool false)),
  ("use_augmix", .prim (.vbool false)),
  ("augmix_params", .prim (.vlist (toPList [.vint 3, .vint (-1), .vint 1]))),
  ("sample_image", .prim .vnone),
  ("shuffle_buffer", .prim (.vint 10000)),
  ("num_classes", .prim (.vint 91)),
  ("seg_num_classes", .prim (.vint 3)),
  ("heads", .prim (.vlist (toPList [.vstr "object_detection"]))),
  ("skip_crowd_during_training", .prim (.vbool true)),
  ("label_map", .prim .vnone),
  ("max_instances_per_image", .prim (.vint 100)),
  ("regenerate_source_id", .prim (.vbool false)),
  ("min_level", .prim (.vint 3)),
  ("max_level", .prim (.vint 7)),
  ("num_scales", .prim (.vint 3)),
  ("aspect_ratios", .prim (.vlist (toPList [
    .vtuple (toPList [.vfloat 1, .vfloat 1]),
    .vtuple (toPList [.vfloat (7/5), .vfloat (7/10)]),
    .vtuple (toPList [.vfloat (7/10), .vfloat (7/5)])]))),
  ("anchor_scale", .prim (.vfloat 4)),
  ("is_training_bn", .prim (.vbool true)),
  ("momentum", .prim (.vfloat (9/10))),
  ("optimizer", .prim (.vstr "sgd")),
  ("learning_rate", .prim (.vfloat (2/25))),
  ("lr_warmup_init", .prim (.vfloat (1/125))),
  ("lr_warmup_epoch", .prim (.vfloat 1)),
  ("clip_gradients_norm", .prim (.vfloat 10)),
  ("num_epochs", .prim (.vint 300)),
  ("data_format", .prim (.vstr "channels_last")),
  ("label_smoothing", .prim (.vfloat 0)),
  ("alpha", .prim (.vfloat (1/4))),
  ("gamma", .prim (.vfloat (3/2))),
  ("delta", .prim (.vfloat (1/10))),
  ("box_loss_weight", .prim (.vfloat 50)),
  ("iou_loss_type", .prim .vnone),
  ("iou_loss_weight", .prim (.vfloat 1)),
  ("l2_weight_decay", .prim (.vfloat (1/25000))),
  ("l1_weight_decay", .prim (.vfloat 0)),
  ("mixed_precision", .prim (.vbool false)),
  ("mixed_precision_on_inputs", .prim (.vbool false)),
  ("loss_scale", .prim (.vint 32768)),
  ("box_class_repeats", .prim (.vint 3)),
  ("fpn_cell_repeats", .prim (.vint 3)),
  ("fpn_num_filters", .prim (.vint 88)),
  ("separable_conv", .prim (.vbool true)),
  ("apply_bn_for_resampling", .prim (.vbool true)),
  ("conv_after_downsample", .prim (.vbool false)),
  ("conv_bn_act_pattern", .prim (.vbool false)),
  ("drop_remainder", .prim (.vbool true)),
  ("nms_configs", .dict (toDDict [
    ("method", .prim (.vstr "gaussian")),
    ("iou_thresh", .prim .vnone),
    ("score_thresh", .prim (.vfloat 0)),
    ("sigma", .prim .vnone),
    ("pyfunc", .prim (.vbool true)),
    ("max_nms_inputs", .prim (.vint 5000)),
    ("max_output_size", .prim (.vint 100))])),
  ("fpn_name", .prim .vnone),
  ("fpn_weight_method", .prim .vnone),
  ("fpn_config", .prim .vnone),
  ("survival_prob", .prim .vnone),
  ("img_summary_steps", .prim .vnone),
  ("lr_decay_method", .prim (.vstr "cosine")),
  ("moving_average_decay", .prim (.vfloat (4999/5000))),
  ("ckpt_var_scope", .prim .vnone),
  ("skip_mismatch", .prim (.vbool true)),
  ("backbone_name", .prim (.vstr "efficientnet-b1")),
  ("backbone_config", .prim .vnone),
  ("backbone_init", .prim .vnone),
  ("var_freeze_expr", .prim .vnone),
  ("use_keras_model", .prim (.vbool true)),
  ("dataset_type", .prim .vnone),
  ("positives_momentum", .prim .vnone),
  ("grad_checkpoint", .prim (.vbool false)),
  ("set_num_threads", .prim (.vint 1)),
  ("use_xla", .prim (.vbool false)),
  ("seed", .prim (.vint 42)),
  ("results_dir", .prim .vnone),
  ("freeze_blocks", .prim .vnone),
  ("freeze_bn", .prim (.vbool false)),
  ("encryption_key", .prim .vnone),
  ("qat", .prim (.vbool false))])

/-- `efficientdet_model_param_dict` (hparams_config.py lines 307-413). -/
def efficientdet_model_param_dict : List (String × DDict) := [
  ("resdet18", toDDict [
    ("name", .prim (.vstr "resdet18")),
    ("backbone_name", .prim (.vstr "resnet18")),
    ("image_size", .prim (.vint 512)),
    ("fpn_num_filters", .prim (.vint 64)),
    ("fpn_cell_repeats", .prim (.vint 3)),
    ("box_class_repeats", .prim (.vint 3))]),
  ("resdet34", toDDict [
    ("name", .prim (.vstr "resdet34")),
    ("backbone_name", .prim (.vstr "resnet34")),
    ("image_size", .prim (.vint 512)),
    ("fpn_num_filters", .prim (.vint 88)),
    ("fpn_cell_repeats", .prim (.vint 4)),
    ("box_class_repeats", .prim (.vint 3))]),
  ("efficientdet-d0", toDDict [
    ("name", .prim (.vstr "efficientdet-d0")),
    ("backbone_name", .prim (.vstr "efficientnet-b0")),
    ("image_size", .prim (.vint 512)),
    ("fpn_num_filters", .prim (.vint 64)),
    ("fpn_cell_repeats", .prim (.vint 3)),
    ("box_class_repeats", .prim (.vint 3))]),
  ("efficientdet-d1", toDDict [
    ("name", .prim (.vstr "efficientdet-d1")),
    ("backbone_name", .prim (.vstr "efficientnet-b1")),
    ("image_size", .prim (.vint 640)),
    ("fpn_num_filters", .prim (.vint 88)),
    ("fpn_cell_repeats", .prim (.vint 4)),
    ("box_class_repeats", .prim (.vint 3))]),
  ("efficientdet-d2", toDDict [
    ("name", .prim (.vstr "efficientdet-d2")),
    ("backbone_name", .prim (.vstr "efficientnet-b2")),
    ("image_size", .prim (.vint 768)),
    ("fpn_num_filters", .prim (.vint 112)),
    ("fpn_cell_repeats", .prim (.vint 5)),
    ("box_class_repeats", .prim (.vint 3))]),
  ("efficientdet-d3", toDDict [
    ("name", .prim (.vstr "efficientdet-d3")),
    ("backbone_name", .prim (.vstr "efficientnet-b3")),
    ("image_size", .prim (.vint 896)),
    ("fpn_num_filters", .prim (.vint 160)),
    ("fpn_cell_repeats", .prim (.vint 6)),
    ("box_class_repeats", .prim (.vint 4))]),
  ("efficientdet-d4", toDDict [
    ("name", .prim (.vstr "efficientdet-d4")),
    ("backbone_name", .prim (.vstr "efficientnet-b4")),
    ("image_size", .prim (.vint 1024)),
    ("fpn_num_filters", .prim (.vint 224)),
    ("fpn_cell_repeats", .prim (.vint 7)),
    ("box_class_repeats", .prim (.vint 4))]),
  ("efficientdet-d5", toDDict [
    ("name", .prim (.vstr "efficientdet-d5")),
    ("backbone_name", .prim (.vstr "efficientnet-b5")),
    ("image_size", .prim (.vint 1280)),
    ("fpn_num_filters", .prim (.vint 288)),
    ("fpn_cell_repeats", .prim (.vint 7)),
    ("box_class_repeats", .prim (.vint 4))]),
  ("efficientdet-d6", toDDict [
    ("name", .prim (.vstr "efficientdet-d6")),
    ("backbone_name", .prim (.vstr "efficientnet-b6")),
    ("image_size", .prim (.vint 1280)),
    ("fpn_num_filters", .prim (.vint 384)),
    ("fpn_cell_repeats", .prim (.vint 8)),
    ("box_class_repeats", .prim (.vint 5)),
    ("fpn_weight_method", .prim (.vstr "sum"))]),
  ("efficientdet-d7", toDDict [
    ("name", .prim (.vstr "efficientdet-d7")),
    ("backbone_name", .prim (.vstr "efficientnet-b6")),
    ("image_size", .prim (.vint 1536)),
    ("fpn_num_filters", .prim (.vint 384)),
    ("fpn_cell_repeats", .prim (.vint 8)),
    ("box_class_repeats", .prim (.vint 5)),
    ("anchor_scale", .prim (.vfloat 5)),
    ("fpn_weight_method", .prim (.vstr "sum"))]),
  ("efficientdet-d7x", toDDict [
    ("name", .prim (.vstr "efficientdet-d7x")),
    ("backbone_name", .prim (.vstr "efficientnet-b7")),
    ("image_size", .prim (.vint 1536)),
    ("fpn_num_filters", .prim (.vint 384)),
    ("fpn_cell_repeats", .prim (.vint 8)),
    ("box_class_repeats", .prim (.vint 5)),
    ("anchor_scale", .prim (.vfloat 4)),
    ("max_level", .prim (.vint 8)),
    ("fpn_weight_method", .prim (.vstr "sum"))])]

/-- `get_efficientdet_config(model_name)` (hparams_config.py lines 416-423):
the defaults, overridden (`override`, i.e. `_update` with
`allow_new_keys=False`) by the preset entry; an unknown name raises
`ValueError(f'Unknown model name: {model_name}')`. -/
def get_efficientdet_config (model_name : String) : Except PyErr CDict :=
  let h := default_detection_configs
  match efficientdet_model_param_dict.lookup model_name with
  | some d =>
    match cfgUpdate h d false with
    | (h', none) => .ok h'
    | (_, some e) => .error e
  | none => .error (.valueError ("Unknown model name: " ++ model_name))

/-- `get_detection_config(model_name)` (hparams_config.py lines 426-431). -/
def get_detection_config (model_name : String) : Except PyErr CDict :=
  if pyStartswith model_name "efficientdet" || pyStartswith model_name "resdet" then
    get_efficientdet_config model_name
  else .error (.valueError "model name must start with efficientdet or resdet.")

/-- Mathematical reformulation of consecutive chunking, used by the proofs
about `batch_generator`: the first `bs` elements, then the chunks of the
rest.  (Not a source translation.) -/
def chunks (bs : Nat) (l : List α) : List (List α) :=
  if h : l.isEmpty = true ∨ bs = 0 then []
  else l.take bs :: chunks bs (l.drop bs)
termination_by l.length
decreasing_by
  simp only [List.isEmpty_iff, not_or] at h
  have hl : 0 < l.length := List.length_pos.mpr h.1
  simp only [List.length_drop]
  omega

/-! ### Theorems -/

/-- **C2**, counterexample.  The claim states that every result of
`random_hue` lies in the half-open interval `[0, 360)`.  A channel value of
340 with delta 20 satisfies every premise of the claim
(`hchannel ∈ [0, 360]`, `|delta| ≤ max_delta ≤ 360`) yet produces exactly
360, which is not below 360: the sum 360 triggers neither wrap
(`> 360` is false, `< 0` is false). -/
theorem C2_counterexample :
    (0 : ℚ) ≤ 340 ∧ (340 : ℚ) ≤ 360 ∧ |(20 : ℚ)| ≤ 20 ∧ (20 : ℚ) ≤ 360 ∧
    random_hue_channel 340 20 = 360 ∧ ¬ random_hue_channel 340 20 < 360 := by
  norm_num [random_hue_channel, hueWrapHigh, hueWrapLow]

/-- **C2** (amended).  For hue-channel values in `[0, 360]` and
`|delta| ≤ max_delta ≤ 360`, `random_hue` adds the delta and wraps values
above 360 down by 360 and values below 0 up by 360; every result lies in the
closed interval `[0, 360]` (the bound 360 itself is attainable, so the
interval is closed, not half-open), and a channel value of 350 with delta
+20 yields 10. -/
theorem C2_random_hue (hchannel delta max_delta : ℚ)
    (h0 : 0 ≤ hchannel) (h360 : hchannel ≤ 360)
    (hd : |delta| ≤ max_delta) (hm : max_delta ≤ 360) :
    0 ≤ random_hue_channel hchannel delta ∧
    random_hue_channel hchannel delta ≤ 360 ∧
    (delta + hchannel > 360 →
      random_hue_channel hchannel delta = delta + hchannel - 360) ∧
    (delta + hchannel < 0 →
      random_hue_channel hchannel delta = delta + hchannel + 360) ∧
    random_hue_channel 350 20 = 10 := by
  obtain ⟨hd1, hd2⟩ := abs_le.mp hd
  unfold random_hue_channel hueWrapHigh hueWrapLow
  refine ⟨?_, ?_, ?_, ?_, by norm_num⟩ <;> split_ifs <;> intros <;> linarith

/-- Witness for C2 (amended) at the claim's example input. -/
theorem C2_witness :
    (0 : ℚ) ≤ 350 ∧ (350 : ℚ) ≤ 360 ∧ |(20 : ℚ)| ≤ 20 ∧ (20 : ℚ) ≤ 360 ∧
    random_hue_channel 350 20 = 10 :=
  ⟨by norm_num, by norm_num, by norm_num, by norm_num,
    (C2_random_hue 350 20 20 (by norm_num) (by norm_num) (by norm_num)
      (by norm_num)).2.2.2.2⟩

/-- Key lookup in the enumerated label list: entry `i` of the remaining lines
is found under key `i0 + i + 1` and is that line with its last character
removed. -/
theorem labelEntries_lookup (ls : List (List Char)) (i0 i : Nat) :
    (labelEntries i0 ls).lookup (i0 + i + 1) = (ls.get? i).map List.dropLast := by
  induction ls generalizing i0 i with
  | nil => simp [labelEntries]
  | cons l rest ih =>
    cases i with
    | zero => simp [labelEntries, List.lookup]
    | succ i' =>
      have hne : (i0 + 1 + i' + 1 == i0 + 1) = false := by
        simp only [beq_eq_false_iff_ne, ne_eq]
        omega
      have harith : i0 + (i' + 1) + 1 = i0 + 1 + i' + 1 := by omega
      simp only [labelEntries, List.lookup, harith, hne, List.get?_cons_succ]
      exact ih (i0 + 1) i'

/-- The label dict never contains key 0: all keys exceed the start index. -/
theorem labelEntries_lookup_zero (ls : List (List Char)) (i0 : Nat) :
    (labelEntries i0 ls).lookup 0 = none := by
  induction ls generalizing i0 with
  | nil => simp [labelEntries]
  | cons l rest ih => simp [labelEntries, List.lookup, ih]

/-- **C7**: `get_label_dict` maps index `i + 1` to the `i`-th line of the
file with exactly its last character removed (indices starting at 1 in file
order, key 0 absent); a file `"cat\ndog\n"` produces
`{1: "cat", 2: "dog"}`, and when the final line lacks a trailing newline the
last character of the label itself is removed (`"cat\ndog"` produces
`{1: "cat", 2: "do"}`). -/
theorem C7_get_label_dict :
    (∀ (content : List Char) (i : Nat),
      (get_label_dict content).lookup (i + 1) =
        ((readlines content).get? i).map List.dropLast) ∧
    (∀ content : List Char, (get_label_dict content).lookup 0 = none) ∧
    get_label_dict "cat\ndog\n".data = [(1, "cat".data), (2, "dog".data)] ∧
    get_label_dict "cat\ndog".data = [(1, "cat".data), (2, "do".data)] := by
  refine ⟨?_, ?_, rfl, rfl⟩
  · intro content i
    have h := labelEntries_lookup (readlines content) 0 i
    simpa [get_label_dict] using h
  · intro content
    exact labelEntries_lookup_zero _ _

/-- `advanceK` only moves the cursor: the two list attributes are unchanged. -/
theorem advanceK_fields (k : Nat) (ds : DataSource) :
    (advanceK k ds).tfrecord_patterns = ds.tfrecord_patterns ∧
    (advanceK k ds).image_dirs = ds.image_dirs := by
  induction k generalizing ds with
  | zero => exact ⟨rfl, rfl⟩
  | succ k ih =>
    by_cases hn : ds.n < ds.tfrecord_patterns.length
    · simpa [advanceK, DataSource.next, hn] using ih { ds with n := ds.n + 1 }
    · simp [advanceK, DataSource.next, hn]

/-- **C8**: `__iter__` returns the `DataSource` itself with the single
internal cursor reset to 0; consequently an iterator requested after `k`
elements have already been consumed is equal to the original iterator
(both are the one shared object in the reset state), and iteration after the
re-request restarts from the first element rather than continuing. -/
theorem C8_iter_resets (ds : DataSource) (k : Nat) :
    (ds.iter).n = 0 ∧
    DataSource.iter (advanceK k ds.iter) = ds.iter ∧
    ∀ fuel, drain fuel (DataSource.iter (advanceK k ds.iter)) = drain fuel ds.iter := by
  obtain ⟨hp, hd⟩ := advanceK_fields k ds.iter
  have hiter : DataSource.iter (advanceK k ds.iter) = ds.iter := by
    simp [DataSource.iter] at hp hd ⊢
    exact ⟨hp, hd⟩
  exact ⟨rfl, hiter, fun fuel => by rw [hiter]⟩

/-- Advancing the cursor past the head behaves like iterating the tails:
the pair lists shift together. -/
theorem drain_shift (fuel : Nat) (p d : String) (ps ds' : List String) (n : Nat) :
    drain fuel ⟨p :: ps, d :: ds', n + 1⟩ = drain fuel (⟨ps, ds', n⟩ : DataSource) := by
  induction fuel generalizing p d ps ds' n with
  | zero => rfl
  | succ fuel ih =>
    by_cases hn : n < ps.length
    · simp only [drain, DataSource.next, List.length_cons]
      rw [if_pos (by omega), if_pos hn]
      simp only [List.getD_cons_succ]
      exact congrArg _ (ih p d ps ds' (n + 1))
    · simp only [drain, DataSource.next, List.length_cons]
      rw [if_neg (by omega), if_neg hn]

/-- Draining a freshly reset `DataSource` with matching attribute lengths and
enough fuel yields exactly the zipped pairs in order. -/
theorem drain_zip :
    ∀ (pats dirs : List String) (fuel : Nat),
      dirs.length = pats.length → pats.length ≤ fuel →
      drain fuel (⟨pats, dirs, 0⟩ : DataSource) = pats.zip dirs := by
  intro pats
  induction pats with
  | nil =>
    intro dirs fuel _ _
    cases fuel <;> simp [drain, DataSource.next]
  | cons p ps ih =>
    intro dirs fuel hlen hf
    cases dirs with
    | nil => simp at hlen
    | cons d ds' =>
      cases fuel with
      | zero => simp at hf
      | succ fuel =>
        simp only [drain, DataSource.next, List.length_cons]
        rw [if_pos (by omega)]
        simp only [List.getD_cons_zero]
        rw [drain_shift, ih ds' fuel (by simpa using hlen) (by simpa using hf)]
        rfl

/-- **C4**: constructing a `DataSource` from a non-empty list of `n` TFRecord
patterns and either no image directories or exactly `n` of them succeeds, has
length `n`, and iterating it yields the `n` `(pattern, directory)` pairs in
input order, with the sentinel directory `/` substituted throughout when the
directory list was empty; zero patterns, or a non-zero directory count
different from `n`, fail the constructor's assertions. -/
theorem C4_datasource (tfrecord_patterns image_dirs : List String) :
    (tfrecord_patterns ≠ [] →
      (image_dirs = [] ∨ image_dirs.length = tfrecord_patterns.length) →
      ∃ ds, DataSource.init tfrecord_patterns image_dirs = .ok ds ∧
        ds.len = tfrecord_patterns.length ∧
        ∀ fuel, tfrecord_patterns.length ≤ fuel →
          drain fuel ds.iter = tfrecord_patterns.zip
            (if image_dirs = [] then
              List.replicate tfrecord_patterns.length "/" else image_dirs)) ∧
    (tfrecord_patterns = [] →
      ∃ e, DataSource.init tfrecord_patterns image_dirs = .error e) ∧
    (image_dirs ≠ [] → image_dirs.length ≠ tfrecord_patterns.length →
      ∃ e, DataSource.init tfrecord_patterns image_dirs = .error e) := by
  refine ⟨?_, ?_, ?_⟩
  · intro hne hdirs
    have hlen : 0 < tfrecord_patterns.length := List.length_pos.mpr hne
    rcases hdirs with hd | hd
    · subst hd
      refine ⟨⟨tfrecord_patterns, List.replicate tfrecord_patterns.length "/", 0⟩, ?_, rfl, ?_⟩
      · simp [DataSource.init, hlen]
      · intro fuel hf
        rw [if_pos rfl]
        exact drain_zip _ _ fuel (List.length_replicate _ _) hf
    · have hdne : image_dirs ≠ [] := by
        intro h
        rw [h] at hd
        simp at hd
        omega
      have hdlen : 0 < image_dirs.length := List.length_pos.mpr hdne
      refine ⟨⟨tfrecord_patterns, image_dirs, 0⟩, ?_, rfl, ?_⟩
      · simp [DataSource.init, hlen, hdlen, hd]
      · intro fuel hf
        rw [if_neg hdne]
        exact drain_zip _ _ fuel hd hf
  · intro h
    subst h
    exact ⟨_, rfl⟩
  · intro hdne hmis
    have hdlen : 0 < image_dirs.length := List.length_pos.mpr hdne
    by_cases hp : 0 < tfrecord_patterns.length
    · refine ⟨"The number of image directories doesnot match the number of TFRecords paths.", ?_⟩
      simp [DataSource.init, hp, hdlen, hmis]
    · refine ⟨"Error!", ?_⟩
      simp [DataSource.init, hp]

/-- `chunks` is empty exactly for an empty input or a zero batch size. -/
theorem chunks_eq_nil_iff (bs : Nat) (l : List α) :
    chunks bs l = [] ↔ l = [] ∨ bs = 0 := by
  rw [chunks]
  split <;> rename_i h <;> simp_all [List.isEmpty_iff]

/-- `batch_generator` computes exactly the consecutive chunks of its input:
the index arithmetic over `range(0, total_len, batch_size)` produces the
`take`/`drop` decomposition. -/
theorem batchGen_eq_chunks (bs : Nat) (hbs : 1 ≤ bs) :
    ∀ l : List α, batch_generator l bs = chunks bs l := by
  suffices H : ∀ (n : Nat) (l : List α), l.length = n →
      batch_generator l bs = chunks bs l by
    intro l
    exact H l.length l rfl
  intro n
  induction n using Nat.strong_induction_on with
  | _ n ih =>
    intro l hl
    rcases eq_or_ne l [] with rfl | hne
    · rw [chunks, dif_pos (Or.inl (by simp))]
      unfold batch_generator rangeStep
      rw [show (([] : List α).length - 0 + bs - 1) / bs = 0 from
        Nat.div_eq_of_lt (by simp; omega)]
      simp
    · have hlen : 1 ≤ l.length := List.length_pos.mpr hne
      have hcond : ¬(l.isEmpty = true ∨ bs = 0) := by
        simp only [List.isEmpty_iff, not_or]
        exact ⟨hne, by omega⟩
      rw [chunks, dif_neg hcond]
      have hcount : (l.length - 0 + bs - 1) / bs = (l.length - 1) / bs + 1 := by
        have h1 : l.length - 0 + bs - 1 = l.length - 1 + bs := by omega
        rw [h1, Nat.add_div_right _ (by omega)]
      have hcount' : ((l.drop bs).length - 0 + bs - 1) / bs = (l.length - 1) / bs := by
        simp only [List.length_drop, Nat.sub_zero]
        rcases le_or_lt bs l.length with hle | hlt
        · have h2 : l.length - bs + bs - 1 = l.length - 1 := by omega
          rw [h2]
        · have h0 : l.length - bs = 0 := by omega
          rw [h0]
          have h3 : 0 + bs - 1 = bs - 1 := by omega
          rw [h3, Nat.div_eq_of_lt (by omega), Nat.div_eq_of_lt (by omega)]
      unfold batch_generator rangeStep
      rw [hcount, List.range_succ_eq_map, List.map_map, List.map_cons, List.map_map]
      congr 1
      · simp only [Function.comp_apply, Nat.zero_add, Nat.zero_mul, pySlice,
          List.drop_zero, Nat.sub_zero]
        rw [List.take_eq_take]
        omega
      · rw [← ih (l.drop bs).length (by simp only [List.length_drop]; omega)
          (l.drop bs) rfl]
        unfold batch_generator rangeStep
        rw [hcount', List.map_map]
        apply List.map_congr_left
        intro i hi
        simp only [Function.comp_apply, Nat.zero_add, Nat.succ_eq_add_one, pySlice,
          List.drop_drop, List.length_drop]
        rcases le_or_lt bs l.length with hle | hlt
        · have h1 : (i + 1) * bs = i * bs + bs := by ring
          have h2 : bs + i * bs = i * bs + bs := by ring
          rw [h1, h2]
          congr 1
          generalize i * bs = x
          omega
        · exfalso
          have hm0 : (l.length - 1) / bs = 0 := Nat.div_eq_of_lt (by omega)
          rw [hm0] at hi
          simp at hi

/-- Concatenating the chunks restores the input list. -/
theorem chunks_flatten (bs : Nat) (hbs : 1 ≤ bs) :
    ∀ l : List α, (chunks bs l).flatten = l := by
  suffices H : ∀ (n : Nat) (l : List α), l.length = n → (chunks bs l).flatten = l by
    intro l
    exact H l.length l rfl
  intro n
  induction n using Nat.strong_induction_on with
  | _ n ih =>
    intro l hl
    rcases eq_or_ne l [] with rfl | hne
    · simp [chunks]
    · have hlen : 1 ≤ l.length := List.length_pos.mpr hne
      have hcond : ¬(l.isEmpty = true ∨ bs = 0) := by
        simp only [List.isEmpty_iff, not_or]
        exact ⟨hne, by omega⟩
      rw [chunks, dif_neg hcond]
      simp only [List.flatten_cons]
      rw [ih (l.drop bs).length (by simp only [List.length_drop]; omega)
        (l.drop bs) rfl]
      exact List.take_append_drop bs l

/-- Every chunk except the last has length exactly `bs`. -/
theorem chunks_dropLast_length (bs : Nat) (hbs : 1 ≤ bs) :
    ∀ l : List α, ∀ b ∈ (chunks bs l).dropLast, b.length = bs := by
  suffices H : ∀ (n : Nat) (l : List α), l.length = n →
      ∀ b ∈ (chunks bs l).dropLast, b.length = bs by
    intro l
    exact H l.length l rfl
  intro n
  induction n using Nat.strong_induction_on with
  | _ n ih =>
    intro l hl
    rcases eq_or_ne l [] with rfl | hne
    · simp [chunks]
    · have hlen : 1 ≤ l.length := List.length_pos.mpr hne
      have hcond : ¬(l.isEmpty = true ∨ bs = 0) := by
        simp only [List.isEmpty_iff, not_or]
        exact ⟨hne, by omega⟩
      rw [chunks, dif_neg hcond]
      rcases eq_or_ne (l.drop bs) [] with hdrop | hdrop
      · rw [hdrop]
        rw [show chunks bs ([] : List α) = [] from by simp [chunks]]
        simp
      · have hrne : chunks bs (l.drop bs) ≠ [] := by
          rw [Ne, chunks_eq_nil_iff]
          push_neg
          exact ⟨hdrop, by omega⟩
        rw [List.dropLast_cons_of_ne_nil hrne]
        intro b hb
        rcases List.mem_cons.mp hb with rfl | hb
        · have hbl : bs < l.length := by
            by_contra hc
            push_neg at hc
            exact hdrop (List.drop_eq_nil_of_le hc)
          simp only [List.length_take]
          omega
        · exact ih (l.drop bs).length (by simp only [List.length_drop]; omega)
            (l.drop bs) rfl b hb

/-- Every chunk is non-empty and no longer than `bs`. -/
theorem chunks_mem_length (bs : Nat) (hbs : 1 ≤ bs) :
    ∀ l : List α, ∀ b ∈ chunks bs l, 1 ≤ b.length ∧ b.length ≤ bs := by
  suffices H : ∀ (n : Nat) (l : List α), l.length = n →
      ∀ b ∈ chunks bs l, 1 ≤ b.length ∧ b.length ≤ bs by
    intro l
    exact H l.length l rfl
  intro n
  induction n using Nat.strong_induction_on with
  | _ n ih =>
    intro l hl
    rcases eq_or_ne l [] with rfl | hne
    · simp [chunks]
    · have hlen : 1 ≤ l.length := List.length_pos.mpr hne
      have hcond : ¬(l.isEmpty = true ∨ bs = 0) := by
        simp only [List.isEmpty_iff, not_or]
        exact ⟨hne, by omega⟩
      rw [chunks, dif_neg hcond]
      intro b hb
      rcases List.mem_cons.mp hb with rfl | hb
      · simp only [List.length_take]
        omega
      · exact ih (l.drop bs).length (by simp only [List.length_drop]; omega)
          (l.drop bs) rfl b hb

/-- **C6**: for every list and every batch size at least 1,
`batch_generator` yields the consecutive slices of its input in order:
their concatenation is the input (so every element is covered exactly once
with no reordering), every slice before the last has length `batch_size`,
every slice is non-empty and at most `batch_size` long, and in particular
`batch_generator [1,2,3,4,5] 2` yields `[1,2]`, `[3,4]`, `[5]`. -/
theorem C6_batch_generator {α : Type} (l : List α) (batch_size : Nat)
    (hbs : 1 ≤ batch_size) :
    (batch_generator l batch_size).flatten = l ∧
    (∀ b ∈ (batch_generator l batch_size).dropLast, b.length = batch_size) ∧
    (∀ b ∈ batch_generator l batch_size, 1 ≤ b.length ∧ b.length ≤ batch_size) ∧
    batch_generator [1, 2, 3, 4, 5] 2 = [[1, 2], [3, 4], [5]] := by
  rw [batchGen_eq_chunks batch_size hbs l]
  exact ⟨chunks_flatten batch_size hbs l, chunks_dropLast_length batch_size hbs l,
    chunks_mem_length batch_size hbs l, rfl⟩

/-- Witness for C6 at a concrete input. -/
theorem C6_witness :
    1 ≤ 2 ∧ (batch_generator [1, 2, 3, 4, 5] 2).flatten = [1, 2, 3, 4, 5] :=
  ⟨by omega, (C6_batch_generator [1, 2, 3, 4, 5] 2 (by omega)).1⟩

/-- `pyLowerChar` never outputs an uppercase letter occurring in the
uppercase allow-list entries. -/
theorem pyLowerChar_ne_upper (c : Char) :
    pyLowerChar c ≠ 'J' ∧ pyLowerChar c ≠ 'P' ∧ pyLowerChar c ≠ 'G' ∧
    pyLowerChar c ≠ 'E' ∧ pyLowerChar c ≠ 'N' := by
  unfold pyLowerChar
  split <;> simp_all

/-- A lowercased string never contains the uppercase letters of the
uppercase allow-list entries. -/
theorem pyLower_no_upper (s : List Char) :
    'J' ∉ pyLower s ∧ 'P' ∉ pyLower s ∧ 'G' ∉ pyLower s ∧
    'E' ∉ pyLower s ∧ 'N' ∉ pyLower s := by
  refine ⟨?_, ?_, ?_, ?_, ?_⟩ <;>
  · intro h
    obtain ⟨c, _, hc⟩ := List.mem_map.1 h
    have hne := pyLowerChar_ne_upper c
    tauto

/-- **C9**: a file name passes the `infer_tlt` extension filter exactly when
its lowercased `splitext` extension is `.jpg`, `.jpeg` or `.png`; the
lowercased extension can never equal the uppercase allow-list entries
`.JPG`, `.JPEG`, `.PNG` (so those members are never the one matched); the
match accepts arbitrary case variants such as `.Jpg` and `.pNg` and rejects
every other extension. -/
theorem C9_image_format (imgname : List Char) :
    (imageSelected imgname = true ↔
      pyLower (splitext imgname).2 ∈ [".jpg".data, ".jpeg".data, ".png".data]) ∧
    pyLower (splitext imgname).2 ≠ ".JPG".data ∧
    pyLower (splitext imgname).2 ≠ ".JPEG".data ∧
    pyLower (splitext imgname).2 ≠ ".PNG".data ∧
    imageSelected "photo.Jpg".data = true ∧
    imageSelected "photo.pNg".data = true ∧
    imageSelected "photo.JPEG".data = true ∧
    imageSelected "photo.gif".data = false ∧
    imageSelected "photojpg".data = false := by
  obtain ⟨hJ, hP, hG, hE, hN⟩ := pyLower_no_upper (splitext imgname).2
  have h1 : pyLower (splitext imgname).2 ≠ ".JPG".data := by
    intro h
    exact hJ (h ▸ (by decide : 'J' ∈ ".JPG".data))
  have h2 : pyLower (splitext imgname).2 ≠ ".JPEG".data := by
    intro h
    exact hJ (h ▸ (by decide : 'J' ∈ ".JPEG".data))
  have h3 : pyLower (splitext imgname).2 ≠ ".PNG".data := by
    intro h
    exact hP (h ▸ (by decide : 'P' ∈ ".PNG".data))
  refine ⟨?_, h1, h2, h3, by decide, by decide, by decide, by decide, by decide⟩
  unfold imageSelected supported_img_format
  simp only [decide_eq_true_eq, List.mem_cons, List.not_mem_nil, or_false]
  constructor
  · rintro (h | h | h | h | h | h) <;> tauto
  · tauto

/-- Witness for C4 at a concrete input: two patterns, no directories. -/
theorem C4_witness :
    ∃ ds, DataSource.init ["a", "b"] [] = .ok ds ∧
      ds.len = (["a", "b"] : List String).length ∧
      ∀ fuel, (["a", "b"] : List String).length ≤ fuel →
        drain fuel ds.iter = (["a", "b"] : List String).zip
          (if ([] : List String) = [] then
            List.replicate (["a", "b"] : List String).length "/" else []) :=
  (C4_datasource ["a", "b"] []).1 (List.cons_ne_nil _ _) (Or.inl rfl)

/-- A Python list assignment `l[i] = v` succeeds exactly for indices in
`[-len, len)`. -/
theorem pyListSet_some_iff (cn : List String) (i : Int) (v : String) :
    (pyListSet cn i v).isSome ↔ -(cn.length : Int) ≤ i ∧ i < (cn.length : Int) := by
  unfold pyListSet
  split_ifs <;> simp_all <;> omega

/-- List assignment preserves length. -/
theorem pyListSet_length (cn : List String) (i : Int) (v : String) (cn2 : List String)
    (h : pyListSet cn i v = some cn2) : cn2.length = cn.length := by
  unfold pyListSet at h
  split_ifs at h <;> first
    | (obtain rfl := Option.some_inj.mp h; simp)
    | simp at h

/-- A successful assignment writes `v` at the normalized position. -/
theorem pyListSet_get_self (cn : List String) (i : Int) (v : String) (cn2 : List String)
    (h : pyListSet cn i v = some cn2) : cn2[normIdx cn.length i]? = some v := by
  unfold pyListSet at h
  split_ifs at h with h1 h2 h3
  · obtain rfl := Option.some_inj.mp h
    rw [show normIdx cn.length i = i.toNat from by unfold normIdx; rw [if_neg (by omega)]]
    exact List.getElem?_set_self (by omega)
  · obtain rfl := Option.some_inj.mp h
    rw [show normIdx cn.length i = (i + (cn.length : Int)).toNat from by
      unfold normIdx; rw [if_pos (by omega)]]
    exact List.getElem?_set_self (by omega)

/-- A successful assignment leaves every other position unchanged. -/
theorem pyListSet_get_ne (cn : List String) (i : Int) (v : String) (cn2 : List String)
    (h : pyListSet cn i v = some cn2) (j : Nat) (hj : normIdx cn.length i ≠ j) :
    cn2[j]? = cn[j]? := by
  unfold pyListSet at h
  split_ifs at h with h1 h2 h3
  · obtain rfl := Option.some_inj.mp h
    refine List.getElem?_set_ne ?_
    rw [show normIdx cn.length i = i.toNat from by unfold normIdx; rw [if_neg (by omega)]] at hj
    exact hj
  · obtain rfl := Option.some_inj.mp h
    refine List.getElem?_set_ne ?_
    rw [show normIdx cn.length i = (i + (cn.length : Int)).toNat from by
      unfold normIdx; rw [if_pos (by omega)]] at hj
    exact hj

/-- The assignment loop of `run_evaluate` succeeds exactly when every entry
is an int within `[-len, len)`. -/
theorem assignAll_ok_iff :
    ∀ (data : List (String × JNum)) (cn : List String),
      (∃ cn', assignAll cn data = .ok cn') ↔
        ∀ p ∈ data, ∃ i : Int, p.2 = .jint i ∧
          -(cn.length : Int) ≤ i ∧ i < (cn.length : Int) := by
  intro data
  induction data with
  | nil => simp [assignAll]
  | cons p rest ih =>
    intro cn
    obtain ⟨name, v⟩ := p
    cases v with
    | jfloat q =>
      simp only [assignAll, List.mem_cons]
      constructor
      · rintro ⟨cn', h⟩
        exact absurd h (by simp)
      · intro h
        obtain ⟨i, hi, -⟩ := h (name, .jfloat q) (Or.inl rfl)
        exact absurd hi (by simp)
    | jint i =>
      simp only [assignAll]
      cases hset : pyListSet cn i name with
      | some cn2 =>
        have hlen := pyListSet_length cn i name cn2 hset
        have hin : -(cn.length : Int) ≤ i ∧ i < (cn.length : Int) := by
          have := (pyListSet_some_iff cn i name).mp (by rw [hset]; rfl)
          exact this
        rw [ih cn2]
        constructor
        · intro h
          intro p hp
          rcases List.mem_cons.mp hp with rfl | hp
          · exact ⟨i, rfl, hin⟩
          · rw [← hlen]
            exact h p hp
        · intro h p hp
          rw [hlen]
          exact h p (List.mem_cons_of_mem _ hp)
      | none =>
        have hout : ¬(-(cn.length : Int) ≤ i ∧ i < (cn.length : Int)) := by
          intro hc
          have := (pyListSet_some_iff cn i name).mpr hc
          rw [hset] at this
          simp at this
        constructor
        · rintro ⟨cn', h⟩
          exact absurd h (by simp)
        · intro h
          obtain ⟨i', hi', hin'⟩ := h (name, .jint i) (List.mem_cons_self _ _)
          obtain rfl : i = i' := by simpa using hi'
          exact absurd hin' hout

/-- When every entry is an int, the assignment loop never raises the
invalid-data error (its only failure is `IndexError`). -/
theorem assignAll_no_invalid :
    ∀ (data : List (String × JNum)) (cn : List String),
      (∀ p ∈ data, isInstInt p.2 = true) →
      assignAll cn data ≠ .error .invalidData := by
  intro data
  induction data with
  | nil => simp [assignAll]
  | cons p rest ih =>
    intro cn hall
    obtain ⟨name, v⟩ := p
    cases v with
    | jfloat q =>
      have := hall (name, .jfloat q) (List.mem_cons_self _ _)
      simp [isInstInt] at this
    | jint i =>
      simp only [assignAll]
      cases hset : pyListSet cn i name with
      | some cn2 => exact ih cn2 (fun p hp => hall p (List.mem_cons_of_mem _ hp))
      | none => simp

/-- The assignment loop preserves the class-name list length. -/
theorem assignAll_length :
    ∀ (data : List (String × JNum)) (cn cn' : List String),
      assignAll cn data = .ok cn' → cn'.length = cn.length := by
  intro data
  induction data with
  | nil =>
    intro cn cn' h
    obtain rfl : cn = cn' := Except.ok.inj h
    rfl
  | cons p rest ih =>
    intro cn cn' h
    obtain ⟨name, v⟩ := p
    cases v with
    | jfloat q => exact absurd h (by simp [assignAll])
    | jint i =>
      simp only [assignAll] at h
      cases hset : pyListSet cn i name with
      | some cn2 =>
        rw [hset] at h
        rw [ih cn2 cn' h]
        exact pyListSet_length cn i name cn2 hset
      | none =>
        rw [hset] at h
        exact absurd h (by simp)

/-- Positions that no entry writes to keep their initial value. -/
theorem assignAll_untouched :
    ∀ (data : List (String × JNum)) (cn cn' : List String),
      assignAll cn data = .ok cn' →
      ∀ j : Nat, (∀ p ∈ data, normOf cn.length p ≠ j) → cn'[j]? = cn[j]? := by
  intro data
  induction data with
  | nil =>
    intro cn cn' h j _
    obtain rfl : cn = cn' := Except.ok.inj h
    rfl
  | cons p rest ih =>
    intro cn cn' h j hj
    obtain ⟨name, v⟩ := p
    cases v with
    | jfloat q => exact absurd h (by simp [assignAll])
    | jint i =>
      simp only [assignAll] at h
      cases hset : pyListSet cn i name with
      | none =>
        rw [hset] at h
        exact absurd h (by simp)
      | some cn2 =>
        rw [hset] at h
        have hlen := pyListSet_length cn i name cn2 hset
        have h1 : cn'[j]? = cn2[j]? := by
          refine ih cn2 cn' h j ?_
          intro p hp
          rw [hlen]
          exact hj p (List.mem_cons_of_mem _ hp)
        rw [h1]
        exact pyListSet_get_ne cn i name cn2 hset j
          (hj (name, .jint i) (List.mem_cons_self _ _))

/-- With pairwise distinct write positions, each entry's name ends up at its
normalized index. -/
theorem assignAll_placed :
    ∀ (data : List (String × JNum)) (cn cn' : List String),
      assignAll cn data = .ok cn' →
      (data.map (normOf cn.length)).Nodup →
      ∀ p ∈ data, ∀ i : Int, p.2 = .jint i → cn'[normIdx cn.length i]? = some p.1 := by
  intro data
  induction data with
  | nil => simp
  | cons p0 rest ih =>
    intro cn cn' h hnd p hp i hpi
    obtain ⟨name, v⟩ := p0
    cases v with
    | jfloat q => exact absurd h (by simp [assignAll])
    | jint i0 =>
      simp only [assignAll] at h
      cases hset : pyListSet cn i0 name with
      | none =>
        rw [hset] at h
        exact absurd h (by simp)
      | some cn2 =>
        rw [hset] at h
        have hlen := pyListSet_length cn i0 name cn2 hset
        simp only [List.map_cons, List.nodup_cons] at hnd
        obtain ⟨hhead, htail⟩ := hnd
        rcases List.mem_cons.mp hp with rfl | hp
        · have hii : i0 = i := by simpa using hpi
          subst hii
          have huntouched : cn'[normIdx cn.length i0]? = cn2[normIdx cn.length i0]? := by
            refine assignAll_untouched rest cn2 cn' h _ ?_
            intro q hq
            rw [hlen]
            intro hc
            exact hhead (List.mem_map.mpr ⟨q, hq, hc⟩)
          rw [huntouched]
          exact pyListSet_get_self cn i0 name cn2 hset
        · have := ih cn2 cn' h (by rw [hlen]; exact htail) p hp i hpi
          rw [hlen] at this
          exact this

/-- **C1** (amended).  For a non-empty classmap, `run_evaluate` builds the
class-name list exactly when every index is an integer in
`[-num_classes, num_classes)` — the validation `class_index < len(class_names)
and isinstance(class_index, int)` does not reject negative integers, and a
negative index places its name counting from the end of the list (Python
negative indexing); the invalid-data `RuntimeError` is raised exactly when
some index is not an integer or is `≥ num_classes`.  When the build succeeds
the list has one slot per class and, for pairwise distinct write positions,
each name sits at its (normalized) index. -/
theorem C1_amended (data : List (String × JNum)) (hne : data ≠ []) :
    ((∃ cn, buildClassNames data = .ok cn) ↔
      ∀ p ∈ data, ∃ i : Int, p.2 = .jint i ∧
        -(data.length : Int) ≤ i ∧ i < (data.length : Int)) ∧
    (buildClassNames data = .error .invalidData ↔
      ∃ p ∈ data, (∀ i : Int, p.2 ≠ .jint i) ∨
        ∃ i : Int, p.2 = .jint i ∧ (data.length : Int) ≤ i) ∧
    (∀ cn, buildClassNames data = .ok cn →
      cn.length = data.length ∧
      ((data.map (normOf data.length)).Nodup →
        ∀ p ∈ data, ∀ i : Int, p.2 = .jint i →
          cn[normIdx data.length i]? = some p.1)) := by
  have hrep : (List.replicate data.length ("" : String)).length = data.length :=
    List.length_replicate _ _
  by_cases hvalid : data.all (fun p => numLtNat p.2 data.length && isInstInt p.2)
  · have hbuild : buildClassNames data = assignAll (List.replicate data.length "") data := by
      simp [buildClassNames, hvalid]
    have hints : ∀ p ∈ data, isInstInt p.2 = true := by
      intro p hp
      have := (List.all_eq_true.mp hvalid) p hp
      simp only [Bool.and_eq_true] at this
      exact this.2
    have hlt : ∀ p ∈ data, numLtNat p.2 data.length = true := by
      intro p hp
      have := (List.all_eq_true.mp hvalid) p hp
      simp only [Bool.and_eq_true] at this
      exact this.1
    refine ⟨?_, ?_, ?_⟩
    · rw [hbuild, assignAll_ok_iff data (List.replicate data.length ""), hrep]
    · rw [hbuild]
      constructor
      · intro h
        exact absurd h (assignAll_no_invalid data _ hints)
      · rintro ⟨p, hp, hbad | ⟨i, hi, hge⟩⟩
        · have := hints p hp
          cases hv : p.2 with
          | jint i => exact absurd hv (hbad i)
          | jfloat q => rw [hv] at this; simp [isInstInt] at this
        · have := hlt p hp
          rw [hi] at this
          simp only [numLtNat, decide_eq_true_eq] at this
          omega
    · intro cn hcn
      rw [hbuild] at hcn
      have hlen : cn.length = data.length := by
        rw [assignAll_length data _ cn hcn, hrep]
      refine ⟨hlen, ?_⟩
      intro hnd p hp i hpi
      have := assignAll_placed data _ cn hcn (by rw [hrep]; exact hnd) p hp i hpi
      rw [hrep] at this
      exact this
  · have hbuild : buildClassNames data = .error .invalidData := by
      simp [buildClassNames, hvalid]
    have hbad : ∃ p ∈ data, ¬(numLtNat p.2 data.length && isInstInt p.2) = true := by
      by_contra hc
      push_neg at hc
      exact hvalid (List.all_eq_true.mpr (fun p hp => by
        have := hc p hp
        simpa using this))
    refine ⟨?_, ?_, ?_⟩
    · rw [hbuild]
      constructor
      · rintro ⟨cn, hcn⟩
        exact absurd hcn (by simp)
      · intro h
        exfalso
        obtain ⟨p, hp, hnb⟩ := hbad
        obtain ⟨i, hi, hlo, hhi⟩ := h p hp
        rw [hi] at hnb
        simp only [numLtNat, isInstInt, Bool.and_true, decide_eq_true_eq] at hnb
        omega
    · rw [hbuild]
      constructor
      · intro _
        obtain ⟨p, hp, hnb⟩ := hbad
        refine ⟨p, hp, ?_⟩
        cases hv : p.2 with
        | jfloat q =>
          refine Or.inl (fun i hc => ?_)
          exact JNum.noConfusion hc
        | jint i =>
          rw [hv] at hnb
          simp only [numLtNat, isInstInt, Bool.and_true, decide_eq_true_eq] at hnb
          exact Or.inr ⟨i, rfl, by omega⟩
      · intro _
        rfl
    · intro cn hcn
      rw [hbuild] at hcn
      exact absurd hcn (by simp)

/-- **C1**, counterexample.  The claim says a classmap containing a negative
index raises the invalid-data error; but `{"cat": -1, "dog": 0}` with 2
classes passes the validation (`-1 < 2` and `-1` is an int) and builds
`["dog", "cat"]` — no invalid-data error is raised. -/
theorem C1_counterexample :
    buildClassNames [("cat", .jint (-1)), ("dog", .jint 0)] = .ok ["dog", "cat"] ∧
    (-1 : Int) < 0 ∧
    buildClassNames [("cat", .jint (-1)), ("dog", .jint 0)] ≠ .error .invalidData := by
  refine ⟨rfl, by omega, fun hc => ?_⟩
  rw [show buildClassNames [("cat", .jint (-1)), ("dog", .jint 0)] =
    .ok ["dog", "cat"] from rfl] at hc
  exact Except.noConfusion hc

/-- Witness for C1 at a concrete input: a two-entry classmap with indices
0 and 1 builds successfully. -/
theorem C1_witness :
    ([("cat", JNum.jint 0), ("dog", JNum.jint 1)] : List (String × JNum)) ≠ [] ∧
    (∃ cn, buildClassNames [("cat", JNum.jint 0), ("dog", JNum.jint 1)] = .ok cn) :=
  ⟨by simp, (C1_amended [("cat", JNum.jint 0), ("dog", JNum.jint 1)] (by simp)).1.mpr
    (by
      rintro p hp
      rcases List.mem_cons.mp hp with rfl | hp
      · exact ⟨0, rfl, by norm_num, by norm_num⟩
      · rcases List.mem_cons.mp hp with rfl | hp
        · exact ⟨1, rfl, by norm_num, by norm_num⟩
        · simp at hp)⟩

/-- Appending the empty fragment is the identity. -/
theorem appendC_nil : ∀ self : CDict, appendC self .nil = self
  | .nil => rfl
  | .cons k v rest => by
    simp only [appendC]
    rw [appendC_nil rest]

/-- Looking a key up after appending one binding: the old binding wins, the
appended one answers only for its own, previously absent, key. -/
theorem lookupC_appendOneC : ∀ (self : CDict) (k k' : String) (v : CVal),
    lookupC k' (appendOneC self k v) =
      match lookupC k' self with
      | some x => some x
      | none => if k = k' then some v else none
  | .nil, k, k', v => rfl
  | .cons k0 v0 rest, k, k', v => by
    simp only [appendOneC, lookupC]
    by_cases h : k0 = k'
    · simp only [if_pos h]
    · rw [if_neg h, if_neg h]
      exact lookupC_appendOneC rest k k' v

/-- Appending one binding then a fragment is appending the extended
fragment. -/
theorem appendOneC_eq_appendC : ∀ (self : CDict) (k : String) (v : CVal) (m : CDict),
    appendC (appendOneC self k v) m = appendC self (.cons k v m)
  | .nil, _, _, _ => rfl
  | .cons k0 v0 rest, k, v, m => by
    simp only [appendOneC, appendC]
    rw [appendOneC_eq_appendC rest k v m]

/-- Replacing the value of one key leaves lookups of other keys unchanged. -/
theorem lookupC_setKeyC_ne : ∀ (self : CDict) (k k' : String) (v : CVal), k ≠ k' →
    lookupC k' (setKeyC self k v) = lookupC k' self
  | .nil, _, _, _, _ => rfl
  | .cons k0 v0 rest, k, k', v, h => by
    simp only [setKeyC]
    by_cases h0 : k0 = k
    · rw [if_pos h0]
      simp only [lookupC]
      rw [if_neg (by rw [h0]; exact h), if_neg (by rw [h0]; exact h)]
    · rw [if_neg h0]
      simp only [lookupC]
      by_cases h1 : k0 = k'
      · rw [if_pos h1, if_pos h1]
      · rw [if_neg h1, if_neg h1]
        exact lookupC_setKeyC_ne rest k k' v h

/-- Unfolding equations of `dsize`. -/
theorem dsize_cons_prim (k : String) (p : PVal) (rest : DDict) :
    dsize (.cons k (.prim p) rest) = 1 + 1 + dsize rest := rfl

/-- Unfolding equations of `dsize`, dict-valued binding. -/
theorem dsize_cons_dict (k : String) (l : DDict) (rest : DDict) :
    dsize (.cons k (.dict l) rest) = 1 + (1 + dsize l) + dsize rest := rfl

/-- Every dict weighs at least one. -/
theorem dsize_pos (d : DDict) : 1 ≤ dsize d := by
  cases d with
  | nil => exact le_refl 1
  | cons k v rest =>
    cases v with
    | prim p => rw [dsize_cons_prim]; omega
    | dict l => rw [dsize_cons_dict]; omega

/-- Unfolding equation of `cfgUpdateF` at exhausted fuel. -/
theorem cfgUpdateF_zero (self : CDict) (d : DDict) (allow : Bool) :
    cfgUpdateF 0 self d allow = (self, none) := rfl

/-- Unfolding equation of `cfgUpdateF` on the empty dict. -/
theorem cfgUpdateF_succ_nil (fuel : Nat) (self : CDict) (allow : Bool) :
    cfgUpdateF (fuel + 1) self .nil allow = (self, none) := rfl

/-- Unfolding equation of `cfgUpdateF` on a first binding. -/
theorem cfgUpdateF_succ_cons (fuel : Nat) (self : CDict) (k : String) (v : DVal)
    (rest : DDict) (allow : Bool) :
    cfgUpdateF (fuel + 1) self (.cons k v rest) allow =
      match lookupC k self with
      | none =>
        if allow then
          match v with
          | .prim p => cfgUpdateF fuel (appendOneC self k (.prim p)) rest allow
          | .dict l =>
            cfgUpdateF fuel (appendOneC self k (.sub (cfgUpdateF fuel .nil l true).1))
              rest allow
        else (self, some (.keyError k))
      | some cur =>
        match cur, v with
        | .sub subCfg, .dict subD =>
          match cfgUpdateF fuel subCfg subD allow with
          | (subCfg', some e) => (setKeyC self k (.sub subCfg'), some e)
          | (subCfg', none) =>
            cfgUpdateF fuel (setKeyC self k (.sub subCfg')) rest allow
        | _, .prim p => cfgUpdateF fuel (setKeyC self k (.prim p)) rest allow
        | _, .dict l =>
          cfgUpdateF fuel (setKeyC self k (.sub (cfgUpdateF fuel .nil l true).1))
            rest allow := rfl

/-- The fuel is irrelevant once it reaches the size of the dict. -/
theorem cfgUpdateF_irrel :
    ∀ (f1 : Nat) (d : DDict) (f2 : Nat) (self : CDict) (allow : Bool),
      dsize d ≤ f1 → dsize d ≤ f2 →
      cfgUpdateF f1 self d allow = cfgUpdateF f2 self d allow := by
  intro f1
  induction f1 with
  | zero =>
    intro d f2 self allow h1 _
    exact absurd h1 (by have := dsize_pos d; omega)
  | succ n ih =>
    intro d f2 self allow h1 h2
    cases d with
    | nil =>
      cases f2 with
      | zero => rfl
      | succ m => rfl
    | cons k v rest =>
      cases f2 with
      | zero => exact absurd h2 (by have := dsize_pos (DDict.cons k v rest); omega)
      | succ m =>
        rw [cfgUpdateF_succ_cons, cfgUpdateF_succ_cons]
        cases hlk : lookupC k self with
        | none =>
          cases allow with
          | false => rfl
          | true =>
            cases v with
            | prim p =>
              rw [dsize_cons_prim] at h1 h2
              exact ih rest m _ _ (by omega) (by omega)
            | dict l =>
              rw [dsize_cons_dict] at h1 h2
              show cfgUpdateF n
                  (appendOneC self k (.sub (cfgUpdateF n .nil l true).1)) rest true =
                cfgUpdateF m
                  (appendOneC self k (.sub (cfgUpdateF m .nil l true).1)) rest true
              rw [ih l m .nil true (by omega) (by omega)]
              exact ih rest m _ _ (by omega) (by omega)
        | some cur =>
          cases cur with
          | prim p0 =>
            cases v with
            | prim p =>
              rw [dsize_cons_prim] at h1 h2
              exact ih rest m _ _ (by omega) (by omega)
            | dict l =>
              rw [dsize_cons_dict] at h1 h2
              show cfgUpdateF n
                  (setKeyC self k (.sub (cfgUpdateF n .nil l true).1)) rest allow =
                cfgUpdateF m
                  (setKeyC self k (.sub (cfgUpdateF m .nil l true).1)) rest allow
              rw [ih l m .nil true (by omega) (by omega)]
              exact ih rest m _ _ (by omega) (by omega)
          | sub subCfg =>
            cases v with
            | prim p =>
              rw [dsize_cons_prim] at h1 h2
              exact ih rest m _ _ (by omega) (by omega)
            | dict subD =>
              rw [dsize_cons_dict] at h1 h2
              show (match cfgUpdateF n subCfg subD allow with
                  | (subCfg', some e) => (setKeyC self k (.sub subCfg'), some e)
                  | (subCfg', none) =>
                    cfgUpdateF n (setKeyC self k (.sub subCfg')) rest allow) =
                (match cfgUpdateF m subCfg subD allow with
                  | (subCfg', some e) => (setKeyC self k (.sub subCfg'), some e)
                  | (subCfg', none) =>
                    cfgUpdateF m (setKeyC self k (.sub subCfg')) rest allow)
              rw [ih subD m subCfg allow (by omega) (by omega)]
              cases hr : cfgUpdateF m subCfg subD allow with
              | mk subCfg' e =>
                cases e with
                | none => exact ih rest m _ _ (by omega) (by omega)
                | some err => rfl

/-- `_update` with `allow_new_keys=True` on keys that are all fresh appends
the converted bindings in order and raises nothing. -/
theorem cfgUpdateF_fresh :
    ∀ (fuel : Nat) (d : DDict) (self : CDict),
      dsize d ≤ fuel → wfDict d = true →
      (∀ k : String, hasKeyD k d = true → lookupC k self = none) →
      cfgUpdateF fuel self d true = (appendC self (mapSetVal d), none) := by
  intro fuel
  induction fuel with
  | zero =>
    intro d self h1 _ _
    exact absurd h1 (by have := dsize_pos d; omega)
  | succ n ih =>
    intro d self h1 hwf hfresh
    cases d with
    | nil =>
      rw [show appendC self (mapSetVal .nil) = self from appendC_nil self]
      rfl
    | cons k v rest =>
      have hlk : lookupC k self = none := hfresh k (by simp [hasKeyD])
      have hkw : hasKeyD k rest = false ∧ wfDict rest = true := by
        cases v with
        | prim p =>
          rw [show wfDict (DDict.cons k (.prim p) rest) =
              (!hasKeyD k rest && wfDict rest) from rfl, Bool.and_eq_true,
            Bool.not_eq_eq_eq_not, Bool.not_true] at hwf
          exact ⟨hwf.1, hwf.2⟩
        | dict l =>
          rw [show wfDict (DDict.cons k (.dict l) rest) =
              (!hasKeyD k rest && (wfDict l && wfDict rest)) from rfl,
            Bool.and_eq_true, Bool.and_eq_true,
            Bool.not_eq_eq_eq_not, Bool.not_true] at hwf
          exact ⟨hwf.1, hwf.2.2⟩
      obtain ⟨hkrest, hwrest⟩ := hkw
      have hfresh2 : ∀ x : CVal, ∀ k' : String, hasKeyD k' rest = true →
          lookupC k' (appendOneC self k x) = none := by
        intro x k' hk'
        rw [lookupC_appendOneC]
        have hne : k ≠ k' := by
          intro hc
          rw [hc] at hkrest
          rw [hkrest] at hk'
          exact Bool.noConfusion hk'
        rw [hfresh k' (by simp [hasKeyD, hk'])]
        rw [if_neg hne]
      cases v with
      | prim p =>
        have hrest : dsize rest ≤ n := by
          rw [dsize_cons_prim] at h1
          omega
        have step : cfgUpdateF (n + 1) self (.cons k (.prim p) rest) true =
            cfgUpdateF n (appendOneC self k (.prim p)) rest true := by
          rw [cfgUpdateF_succ_cons, hlk]
          rfl
        rw [step, ih rest (appendOneC self k (.prim p)) hrest hwrest (hfresh2 _)]
        rw [appendOneC_eq_appendC]
        rfl
      | dict l =>
        have hsz : dsize rest ≤ n ∧ dsize l ≤ n := by
          rw [dsize_cons_dict] at h1
          omega
        have hwl : wfDict l = true := by
          rw [show wfDict (DDict.cons k (.dict l) rest) =
              (!hasKeyD k rest && (wfDict l && wfDict rest)) from rfl,
            Bool.and_eq_true, Bool.and_eq_true] at hwf
          exact hwf.2.1
        have step : cfgUpdateF (n + 1) self (.cons k (.dict l) rest) true =
            cfgUpdateF n (appendOneC self k (.sub (cfgUpdateF n .nil l true).1))
              rest true := by
          rw [cfgUpdateF_succ_cons, hlk]
          rfl
        rw [step]
        rw [cfgUpdateF_irrel n l (dsize l) .nil true hsz.2 le_rfl]
        rw [ih rest _ hsz.1 hwrest (hfresh2 _)]
        rw [appendOneC_eq_appendC]
        rfl

/-- Building a `Config` from a well-formed plain dict stores exactly the
converted bindings in order. -/
theorem cfgOf_eq_mapSetVal (d : DDict) (hwf : wfDict d = true) :
    cfgOf d = mapSetVal d := by
  show (cfgUpdateF (dsize d) .nil d true).1 = mapSetVal d
  rw [cfgUpdateF_fresh (dsize d) d .nil le_rfl hwf (fun _ _ => rfl)]
  rfl

/-- Reading the converted bindings back through `as_dict` restores the
well-formed plain dict. -/
theorem asDict_mapSetVal : ∀ d : DDict, wfDict d = true → asDict (mapSetVal d) = d
  | .nil, _ => rfl
  | .cons k (.prim p) rest, hwf => by
    have hwrest : wfDict rest = true := by
      rw [show wfDict (DDict.cons k (.prim p) rest) =
          (!hasKeyD k rest && wfDict rest) from rfl, Bool.and_eq_true] at hwf
      exact hwf.2
    show DDict.cons k (.prim p) (asDict (mapSetVal rest)) = DDict.cons k (.prim p) rest
    rw [asDict_mapSetVal rest hwrest]
  | .cons k (.dict l) rest, hwf => by
    have hwl : wfDict l = true := by
      rw [show wfDict (DDict.cons k (.dict l) rest) =
          (!hasKeyD k rest && (wfDict l && wfDict rest)) from rfl,
        Bool.and_eq_true, Bool.and_eq_true] at hwf
      exact hwf.2.1
    have hwrest : wfDict rest = true := by
      rw [show wfDict (DDict.cons k (.dict l) rest) =
          (!hasKeyD k rest && (wfDict l && wfDict rest)) from rfl,
        Bool.and_eq_true, Bool.and_eq_true] at hwf
      exact hwf.2.2
    show DDict.cons k (.dict (asDict (cfgUpdate CDict.nil l true).1))
        (asDict (mapSetVal rest)) = DDict.cons k (.dict l) rest
    rw [show (cfgUpdate CDict.nil l true).1 = mapSetVal l from cfgOf_eq_mapSetVal l hwl]
    rw [asDict_mapSetVal l hwl, asDict_mapSetVal rest hwrest]

/-- **C10**: building a `Config` from a plain nested dict (string keys, leaf
values scalars or lists) and reading it back with `as_dict` yields the dict
unchanged; `__setattr__` and `as_dict` deep-copy non-dict values, so the
`Config` holds its own copies — value semantics the pure embedding reflects
exactly. -/
theorem C10_roundtrip (d : DDict) (hwf : wfDict d = true) :
    asDict (cfgOf d) = d := by
  rw [cfgOf_eq_mapSetVal d hwf]
  exact asDict_mapSetVal d hwf

/-- Witness for C10 at a concrete nested dict. -/
theorem C10_witness :
    wfDict (toDDict [("a", .dict (toDDict [("b", .prim (.vint 1))])),
      ("x", .prim (.vstr "y"))]) = true ∧
    asDict (cfgOf (toDDict [("a", .dict (toDDict [("b", .prim (.vint 1))])),
      ("x", .prim (.vstr "y"))])) =
      toDDict [("a", .dict (toDDict [("b", .prim (.vint 1))])),
        ("x", .prim (.vstr "y"))] :=
  ⟨rfl, C10_roundtrip _ rfl⟩

/-- An `_update` never touches the binding of a key absent from the dict it
applies. -/
theorem lookupC_cfgUpdateF_notMem :
    ∀ (fuel : Nat) (d : DDict) (self : CDict) (allow : Bool) (q : String),
      hasKeyD q d = false →
      lookupC q (cfgUpdateF fuel self d allow).1 = lookupC q self := by
  intro fuel
  induction fuel with
  | zero =>
    intro d self allow q _
    rfl
  | succ n ih =>
    intro d self allow q hq
    cases d with
    | nil => rfl
    | cons k v rest =>
      have hne : k ≠ q := by
        intro hc
        rw [show hasKeyD q (DDict.cons k v rest) =
            (if k = q then true else hasKeyD q rest) from rfl, if_pos hc] at hq
        exact Bool.noConfusion hq
      have hqrest : hasKeyD q rest = false := by
        rw [show hasKeyD q (DDict.cons k v rest) =
            (if k = q then true else hasKeyD q rest) from rfl, if_neg hne] at hq
        exact hq
      have happ : ∀ x : CVal, lookupC q (appendOneC self k x) = lookupC q self := by
        intro x
        rw [lookupC_appendOneC]
        cases hs : lookupC q self with
        | some y => rfl
        | none => rw [if_neg hne]
      have hset : ∀ x : CVal, lookupC q (setKeyC self k x) = lookupC q self :=
        fun x => lookupC_setKeyC_ne self k q x hne
      rw [cfgUpdateF_succ_cons]
      cases hlk : lookupC k self with
      | none =>
        cases allow with
        | false => rfl
        | true =>
          cases v with
          | prim p =>
            show lookupC q (cfgUpdateF n (appendOneC self k (.prim p)) rest true).1 =
              lookupC q self
            rw [ih rest _ true q hqrest, happ]
          | dict l =>
            show lookupC q (cfgUpdateF n
                (appendOneC self k (.sub (cfgUpdateF n .nil l true).1)) rest true).1 =
              lookupC q self
            rw [ih rest _ true q hqrest, happ]
      | some cur =>
        cases cur with
        | prim p0 =>
          cases v with
          | prim p =>
            show lookupC q (cfgUpdateF n (setKeyC self k (.prim p)) rest allow).1 =
              lookupC q self
            rw [ih rest _ allow q hqrest, hset]
          | dict l =>
            show lookupC q (cfgUpdateF n
                (setKeyC self k (.sub (cfgUpdateF n .nil l true).1)) rest allow).1 =
              lookupC q self
            rw [ih rest _ allow q hqrest, hset]
        | sub subCfg =>
          cases v with
          | prim p =>
            show lookupC q (cfgUpdateF n (setKeyC self k (.prim p)) rest allow).1 =
              lookupC q self
            rw [ih rest _ allow q hqrest, hset]
          | dict subD =>
            show lookupC q (match cfgUpdateF n subCfg subD allow with
                | (subCfg', some e) => (setKeyC self k (.sub subCfg'), some e)
                | (subCfg', none) =>
                  cfgUpdateF n (setKeyC self k (.sub subCfg')) rest allow).1 =
              lookupC q self
            cases hr : cfgUpdateF n subCfg subD allow with
            | mk subCfg' e =>
              cases e with
              | none =>
                show lookupC q
                    (cfgUpdateF n (setKeyC self k (.sub subCfg')) rest allow).1 =
                  lookupC q self
                rw [ih rest _ allow q hqrest, hset]
              | some err => exact hset _

/-- Keys not named by the applied dict keep their value across
`Config._update`. -/
theorem lookupC_cfgUpdate_notMem (d : DDict) (self : CDict) (allow : Bool)
    (q : String) (hq : hasKeyD q d = false) :
    lookupC q (cfgUpdate self d allow).1 = lookupC q self :=
  lookupC_cfgUpdateF_notMem (dsize d) d self allow q hq

/-- **C3**: overriding a `Config` built from the dict `a -> (b -> 1, c -> 2)`
with the string `"a.b=5"` succeeds and updates exactly the addressed nested
key, so `as_dict` returns `a -> (b -> 5, c -> 2)` with the sibling `c`
unchanged; overriding with `"a.d=1"` (a key not present, under the default
`allow_new_keys=False`) raises a `KeyError` for `d` and leaves the config
unchanged, with no new key introduced. -/
theorem C3_override :
    (cfgOverride (cfgOf (toDDict [("a", .dict (toDDict
        [("b", .prim (.vint 1)), ("c", .prim (.vint 2))]))])) "a.b=5").2 = none ∧
    asDict (cfgOverride (cfgOf (toDDict [("a", .dict (toDDict
        [("b", .prim (.vint 1)), ("c", .prim (.vint 2))]))])) "a.b=5").1 =
      toDDict [("a", .dict (toDDict [("b", .prim (.vint 5)), ("c", .prim (.vint 2))]))] ∧
    (cfgOverride (cfgOf (toDDict [("a", .dict (toDDict
        [("b", .prim (.vint 1)), ("c", .prim (.vint 2))]))])) "a.d=1").2 =
      some (.keyError "d") ∧
    (cfgOverride (cfgOf (toDDict [("a", .dict (toDDict
        [("b", .prim (.vint 1)), ("c", .prim (.vint 2))]))])) "a.d=1").1 =
      cfgOf (toDDict [("a", .dict (toDDict
        [("b", .prim (.vint 1)), ("c", .prim (.vint 2))]))]) :=
  ⟨rfl, rfl, rfl, rfl⟩


/-- **C5**: `get_detection_config("efficientdet-d6")` succeeds with a config
whose `fpn_weight_method` is `"sum"`, `fpn_num_filters` is `384` and
`box_class_repeats` is `5`, every key the `efficientdet-d6` preset does not
name keeping its default value; names without the `efficientdet`/`resdet`
prefix (such as `"not-a-model"` and `"foo-bar"`) fail with the invalid-input
`ValueError` of `get_detection_config` itself, and every prefixed name absent
from the preset table fails with `ValueError("Unknown model name: ...")`. -/
theorem C5_get_detection_config :
    (∃ c, get_detection_config "efficientdet-d6" = .ok c ∧
      lookupC "fpn_weight_method" c = some (.prim (.vstr "sum")) ∧
      lookupC "fpn_num_filters" c = some (.prim (.vint 384)) ∧
      lookupC "box_class_repeats" c = some (.prim (.vint 5)) ∧
      ∀ q : String, q ∉ (["name", "backbone_name", "image_size",
          "fpn_num_filters", "fpn_cell_repeats", "box_class_repeats",
          "fpn_weight_method"] : List String) →
        lookupC q c = lookupC q default_detection_configs) ∧
    get_detection_config "not-a-model" =
      .error (.valueError "model name must start with efficientdet or resdet.") ∧
    get_detection_config "foo-bar" =
      .error (.valueError "model name must start with efficientdet or resdet.") ∧
    (∀ name : String,
      (pyStartswith name "efficientdet" = true ∨ pyStartswith name "resdet" = true) →
      efficientdet_model_param_dict.lookup name = none →
      get_detection_config name =
        .error (.valueError ("Unknown model name: " ++ name))) ∧
    (∀ name : String, pyStartswith name "efficientdet" = false →
      pyStartswith name "resdet" = false →
      get_detection_config name =
        .error (.valueError "model name must start with efficientdet or resdet.")) := by
  refine ⟨⟨(cfgUpdate default_detection_configs (toDDict [
      ("name", .prim (.vstr "efficientdet-d6")),
      ("backbone_name", .prim (.vstr "efficientnet-b6")),
      ("image_size", .prim (.vint 1280)),
      ("fpn_num_filters", .prim (.vint 384)),
      ("fpn_cell_repeats", .prim (.vint 8)),
      ("box_class_repeats", .prim (.vint 5)),
      ("fpn_weight_method", .prim (.vstr "sum"))]) false).1,
      rfl, rfl, rfl, rfl, ?_⟩, rfl, rfl, ?_, ?_⟩
  · intro q hq
    simp only [List.mem_cons, List.not_mem_nil, or_false, not_or] at hq
    obtain ⟨h1, h2, h3, h4, h5, h6, h7⟩ := hq
    refine lookupC_cfgUpdate_notMem _ default_detection_configs false q ?_
    simp only [toDDict, hasKeyD]
    rw [if_neg (fun hc => h1 hc.symm), if_neg (fun hc => h2 hc.symm),
      if_neg (fun hc => h3 hc.symm), if_neg (fun hc => h4 hc.symm),
      if_neg (fun hc => h5 hc.symm), if_neg (fun hc => h6 hc.symm),
      if_neg (fun hc => h7 hc.symm)]
  · intro name hstart hlook
    unfold get_detection_config
    rw [if_pos (by rcases hstart with h | h <;> simp [h])]
    unfold get_efficientdet_config
    rw [hlook]
  · intro name h1 h2
    unfold get_detection_config
    rw [if_neg (by simp [h1, h2])]

/-- Witness for C5 at a concrete prefixed name absent from the preset
table. -/
theorem C5_witness :
    (pyStartswith "efficientdet-d9" "efficientdet" = true ∨
      pyStartswith "efficientdet-d9" "resdet" = true) ∧
    efficientdet_model_param_dict.lookup "efficientdet-d9" = none ∧
    get_detection_config "efficientdet-d9" =
      .error (.valueError ("Unknown model name: " ++ "efficientdet-d9")) :=
  ⟨Or.inl rfl, rfl,
    C5_get_detection_config.2.2.2.1 "efficientdet-d9" (Or.inl rfl) rfl⟩

end TaoTF2
